import Mathlib

/-!
Verification development for the transformer-block layer module
(models/flux/modules/layers.py): DiT-style double-stream and single-stream
attention blocks, RMS/QK normalization, adaptive modulation, sinusoidal
timestep embeddings, and chunked MLP evaluation.

Modelling conventions.

Tensors are nested lists of exact rationals (the claims under scrutiny are
about dataflow, shapes, chunking and dtype plumbing, not about rounding;
exact arithmetic realises the spec's "up to floating-point accumulation
order").  The sinusoidal timestep embedding is modelled over the reals so
that cos/sin/exp have their true mathematical meaning.  Numeric dtypes are
modelled as tags with PyTorch's type-promotion rule for floating types.

Primitive scalar functions that the source invokes as opaque kernels
(torch.rsqrt, the sqrt inside LayerNorm, SiLU, tanh-approximated GELU, the
exp inside the softmax of the attention primitive) are bundled in a
`Prims` structure and quantified over: every theorem below holds for any
interpretation of these primitives, which is exactly the strength the
claims need.  The rotary rotation induced by the positional-encoding
tensor `pe` is modelled by the field `rot : position -> vector -> vector`.

Exceptions raised by the Python code (torch.split with a zero split size,
the intentionally unimplemented SelfAttention.forward, unpacking a missing
second modulation output) are modelled with `Except String`.
-/

/-- Numeric dtype tags, as far as this module distinguishes them. -/
inductive DType where
  | float16 : DType
  | bfloat16 : DType
  | float32 : DType
  | float64 : DType
  | int64 : DType
deriving DecidableEq, Repr

/-- True for floating-point dtypes (torch.is_floating_point). -/
def DType.isFloat : DType → Bool
  | DType.int64 => false
  | _ => true

/-- PyTorch type promotion restricted to the dtypes of this module:
the integer dtype defers to any float, float64 then float32 dominate,
and mixing float16 with bfloat16 promotes to float32. -/
def promoteD : DType → DType → DType
  | DType.int64, b => b
  | a, DType.int64 => a
  | DType.float64, _ => DType.float64
  | _, DType.float64 => DType.float64
  | DType.float32, _ => DType.float32
  | _, DType.float32 => DType.float32
  | DType.float16, DType.float16 => DType.float16
  | DType.bfloat16, DType.bfloat16 => DType.bfloat16
  | DType.float16, DType.bfloat16 => DType.float32
  | DType.bfloat16, DType.float16 => DType.float32

/-- Rows, matrices and higher-rank tensors as nested lists of rationals. -/
abbrev Row := List ℚ

abbrev Mat := List Row

abbrev T3 := List Mat

abbrev T4 := List T3

/-- Dot product of two rows (truncating to the shorter, which never happens
on well-formed shapes). -/
def dotR (a b : Row) : ℚ := (List.zipWith (· * ·) a b).sum

/-- Sum of a list of rows, elementwise. -/
def sumRows : Mat → Row
  | [] => []
  | [r] => r
  | r :: rs => List.zipWith (· + ·) r (sumRows rs)

/-- Splitting a list into consecutive chunks of size `n`, the last chunk
possibly shorter: the semantics of torch.split along dim 0.  For `n = 0`
the result is `[]` (the caller is responsible for raising the error
torch.split raises in that case). -/
def chunkListF (f n : ℕ) (l : List α) : List (List α) :=
  match f, l with
  | 0, _ => []
  | _ + 1, [] => []
  | g + 1, a :: as => (a :: as).take n :: chunkListF g n ((a :: as).drop n)

def chunkList (n : ℕ) (l : List α) : List (List α) :=
  if n = 0 then [] else chunkListF l.length n l

/-- Error message used to model the exception torch.split raises when the
computed split size is zero on a nonempty dimension. -/
def msgSplitZero : String := "split_size can be 0 only if dimension size is 0"

/-- Error message of the intentionally unimplemented SelfAttention.forward. -/
def msgNotImplemented : String := "not implemented"

/-- Error message modelling the AttributeError obtained by reading fields
off a missing (None) second modulation output. -/
def msgNoneModulation : String := "NoneType has no modulation fields"

/-- Error message modelling the TypeError obtained when QKNorm.forward is
called with both q and k equal to None. -/
def msgNoneNorm : String := "QKNorm called with neither q nor k"

/-- Opaque scalar primitives the source calls as external kernels, plus the
rotary rotation `rot` induced by the positional-encoding tensor pe
(position index and head-dim vector to rotated vector).  All theorems are
quantified over an arbitrary interpretation of these. -/
structure Prims where
  rsq : ℚ → ℚ
  sq : ℚ → ℚ
  slf : ℚ → ℚ
  glf : ℚ → ℚ
  exf : ℚ → ℚ
  rot : ℕ → Row → Row

/-- nn.Linear: a weight matrix (one row per output feature) and a bias. -/
structure Linear where
  weight : Mat
  bias : Row
deriving Repr

/-- Well-formed linear layer mapping inF features to outF features. -/
def Linear.wf (m : Linear) (inF outF : ℕ) : Prop :=
  m.weight.length = outF ∧ (∀ w ∈ m.weight, w.length = inF) ∧ m.bias.length = outF

/-- Applying nn.Linear to one row of features: W x + b. -/
def applyRow (m : Linear) (r : Row) : Row :=
  List.zipWith (· + ·) (m.weight.map (fun w => dotR w r)) m.bias

/-- nn.Linear applied to a rank-2 tensor acts on each row. -/
def linear2 (m : Linear) (x : Mat) : Mat := x.map (applyRow m)

/-- nn.Linear applied to a rank-3 tensor acts on each innermost row. -/
def linear3 (m : Linear) (x : T3) : T3 := x.map (fun xb => xb.map (applyRow m))

/-- nn.Linear applied to a rank-4 tensor acts on each innermost row. -/
def linear4 (m : Linear) (x : T4) : T4 :=
  x.map (fun xb => xb.map (fun xh => xh.map (applyRow m)))

/-- RMSNorm module: the learned per-channel scale together with the dtype
of that parameter (torch.ones gives float32 at construction). -/
structure RMSNormM where
  scale : Row
  sdtype : DType

/-- RMSNorm.__init__(dim): scale = torch.ones(dim), a float32 parameter. -/
def RMSNormM.init (dim : ℕ) : RMSNormM :=
  { scale := List.replicate dim 1, sdtype := DType.float32 }

/-- Value core of RMSNorm.forward on one row: the row is scaled by
rrms = rsqrt(mean(x^2) + 1e-6) and then by the learned per-channel scale.
The float32 upcast and downcast are exact on the modelled values; the
dtype bookkeeping lives in rmsForwardT. -/
def rmsRow (P : Prims) (scale : Row) (r : Row) : Row :=
  let rrms := P.rsq ((r.map (fun a => a ^ 2)).sum / (r.length : ℚ) + 1 / 1000000)
  List.zipWith (fun a s => a * rrms * s) r scale

/-- RMSNorm.forward on a rank-4 per-head tensor (as used on q and k). -/
def rms4 (P : Prims) (scale : Row) (x : T4) : T4 :=
  x.map (fun xb => xb.map (fun xh => xh.map (rmsRow P scale)))

/-- A dtype-tagged rank-2 tensor. -/
structure T2D where
  dtype : DType
  data : Mat

/-- A dtype-tagged rank-4 tensor. -/
structure T4D where
  dtype : DType
  data : T4

/-- RMSNorm.forward with dtype bookkeeping: the input is computed on in
float32, cast back to the input dtype, and then multiplied by the learned
scale parameter, so the result dtype is the PyTorch promotion of the input
dtype with the parameter dtype. -/
def rmsForwardT (P : Prims) (m : RMSNormM) (x : T2D) : T2D :=
  { dtype := promoteD x.dtype m.sdtype,
    data := x.data.map (rmsRow P m.scale) }

/-- QKNorm module: two independent RMSNorm instances over the head dim. -/
structure QKNorm where
  query_norm : RMSNormM
  key_norm : RMSNormM

/-- QKNorm.forward(q, k, v): if k is not None the key path normalizes k,
otherwise the query path normalizes q; either result is cast to v (a
Tensor.to(other) cast, modelled on values as the identity).  Calling with
q and k both None raises. -/
def QKNorm.fwd (P : Prims) (m : QKNorm) (q k : Option T4) (v : T4) :
    Except String T4 :=
  match k with
  | some kk => Except.ok (rms4 P m.key_norm.scale kk)
  | none =>
    match q with
    | some qq => Except.ok (rms4 P m.query_norm.scale qq)
    | none => Except.error msgNoneNorm

/-- Dtype-tagged QKNorm.forward: the .to(v) cast makes the result dtype
equal to the dtype of the value tensor v. -/
def QKNorm.fwdT (P : Prims) (m : QKNorm) (q k : Option T4D) (v : T4D) :
    Except String T4D :=
  match k with
  | some kk =>
    Except.ok { dtype := v.dtype, data := rms4 P m.key_norm.scale kk.data }
  | none =>
    match q with
    | some qq =>
      Except.ok { dtype := v.dtype, data := rms4 P m.query_norm.scale qq.data }
    | none => Except.error msgNoneNorm

/-- SelfAttention module: the split q/k/v projections (the fused qkv layer
decomposed per get_linear_split_map), the QK normalization and the output
projection.  The blocks use exactly these components. -/
structure SelfAttn where
  q : Linear
  k : Linear
  v : Linear
  norm : QKNorm
  proj : Linear

/-- SelfAttention.forward: an intentionally unimplemented placeholder that
raises on every call. -/
def SelfAttn.fwd (_sa : SelfAttn) (_x : T3) (_pe : ℕ → Row → Row) :
    Except String T3 :=
  Except.error msgNotImplemented

/-- One modulation output: shift, scale and gate, each of shape
[batch, 1, hidden_size]. -/
structure ModOut where
  shift : T3
  scale : T3
  gate : T3

/-- torch.chunk(chunks, dim=-1) on one row: consecutive chunks of size
ceil(len / chunks). -/
def torchChunk (chunks : ℕ) (r : Row) : List Row :=
  chunkList ((r.length + chunks - 1) / chunks) r

/-- Modulation module: the double-mode flag, the derived multiplier and
the linear layer of multiplier * dim outputs. -/
structure Modulation where
  is_double : Bool
  multiplier : ℕ
  lin : Linear

/-- Modulation.__init__(dim, double): multiplier is 6 in double mode and 3
otherwise, and lin = nn.Linear(dim, multiplier * dim) (weights and bias
are drawn from the given generators, so their shapes are those nn.Linear
guarantees). -/
def Modulation.init (dim : ℕ) (double : Bool) (wg : ℕ → ℕ → ℚ) (bg : ℕ → ℚ) :
    Modulation :=
  let mult := if double then 6 else 3
  { is_double := double,
    multiplier := mult,
    lin :=
      { weight := (List.range (mult * dim)).map (fun i => (List.range dim).map (wg i)),
        bias := (List.range (mult * dim)).map bg } }

/-- Chunk i (shape [batch, 1, dim]) of the modulation linear output: SiLU,
then the linear map, then a broadcast sequence dimension, then
torch.chunk(multiplier, dim=-1). -/
def Modulation.piece (P : Prims) (m : Modulation) (vec : Mat) (i : ℕ) : T3 :=
  vec.map (fun r => [(torchChunk m.multiplier (applyRow m.lin (r.map P.slf))).getD i []])

/-- Modulation.forward: always one ModulationOut from chunks 0..2, and a
second ModulationOut from chunks 3..5 exactly in double mode (None
otherwise). -/
def Modulation.fwd (P : Prims) (m : Modulation) (vec : Mat) :
    ModOut × Option ModOut :=
  ( { shift := m.piece P vec 0, scale := m.piece P vec 1, gate := m.piece P vec 2 },
    if m.is_double then
      some { shift := m.piece P vec 3, scale := m.piece P vec 4, gate := m.piece P vec 5 }
    else none )

/-- split_mlp(mlp, x, divide): x is viewed as [-1, x.shape[-1]] (the list
of rows `rows`), the chunk size is int(x_shape[1] / divide) (an earlier
assignment from x.shape[0] is immediately overwritten in the source), the
rows are torch.split into chunks of that size, each chunk is passed
through the three MLP stages (each stage acts row-wise) and written back
in place, and the updated storage is reshaped to the original shape.
A zero chunk size on a nonempty tensor makes torch.split raise.  The
three stages are the row functions f, g, h. -/
def splitMlp (f g h : Row → Row) (xshape : List ℕ) (rows : Mat)
    (divide : ℕ := 8) : Except String Mat :=
  let chunkSize := xshape.getD 1 0 / divide
  if chunkSize = 0 ∧ rows ≠ [] then Except.error msgSplitZero
  else
    Except.ok ((chunkList chunkSize rows).map (fun c => c.map (fun r => h (g (f r))))).flatten

/-- The unchunked 3-stage MLP mlp[2](mlp[1](mlp[0](x))) applied to the
whole tensor, stated on the same row decomposition (each stage acts on the
last dimension, i.e. row-wise).  This is the spec-side reference
computation the chunked evaluation is compared against. -/
def unchunkedMlp (f g h : Row → Row) (rows : Mat) : Mat :=
  rows.map (fun r => h (g (f r)))

/-- The three row-wise stages of an nn.Sequential(Linear, GELU, Linear)
MLP as used by the blocks. -/
structure Mlp3 where
  lin1 : Linear
  lin2 : Linear

/-- split_mlp applied to a rank-3 tensor [B, S, C] (as called in
DoubleStreamBlock.forward, with the default divide = 8): flatten to rows,
run the generic split_mlp, reshape back. -/
def splitMlp3 (P : Prims) (mlp : Mlp3) (x : T3) (divide : ℕ := 8) :
    Except String T3 :=
  let xshape := [x.length, (x.headD []).length, ((x.headD []).headD []).length]
  match splitMlp (applyRow mlp.lin1) (fun r => r.map P.glf) (applyRow mlp.lin2)
      xshape x.flatten divide with
  | Except.error e => Except.error e
  | Except.ok rows => Except.ok (chunkList ((x.headD []).length) rows)



/-- Width of the last dimension of a rank-3 tensor (x.shape[-1]). -/
def rowWidth (x : T3) : ℕ := ((x.headD []).headD []).length

/-- Parameter-free LayerNorm (elementwise_affine=False, eps=1e-6) on one
row: center by the mean, scale by sqrt(variance + eps). -/
def lnRow (P : Prims) (r : Row) : Row :=
  let mu := r.sum / (r.length : ℚ)
  let vr := (r.map (fun a => (a - mu) ^ 2)).sum / (r.length : ℚ)
  r.map (fun a => (a - mu) / P.sq (vr + 1 / 1000000))

/-- LayerNorm on a rank-3 tensor, applied to each innermost row. -/
def ln3 (P : Prims) (x : T3) : T3 := x.map (fun xb => xb.map (lnRow P))

/-- Elementwise 1 + m on a rank-3 tensor (for the 1 + scale modulation). -/
def onePlus3 (m : T3) : T3 := m.map (fun mb => mb.map (fun r => r.map (fun a => 1 + a)))

/-- In-place x.mul_(m) where m has shape [B, 1, C]: the single row of m is
broadcast across the sequence dimension of x. -/
def mulBr (x m : T3) : T3 :=
  List.zipWith (fun xb mb => xb.map (fun r => List.zipWith (· * ·) r (mb.headD []))) x m

/-- In-place x.add_(m) where m has shape [B, 1, C], broadcast as in mulBr. -/
def addBr (x m : T3) : T3 :=
  List.zipWith (fun xb mb => xb.map (fun r => List.zipWith (· + ·) r (mb.headD []))) x m

/-- In-place x.addcmul_(t, g): x + t * g elementwise, where the gate g has
shape [B, 1, C] and is broadcast across the sequence dimension. -/
def addcmul3 (x t g : T3) : T3 :=
  List.zipWith
    (fun xb p =>
      List.zipWith
        (fun xr tr => List.zipWith (· + ·) xr (List.zipWith (· * ·) tr (p.2.headD [])))
        xb p.1)
    x (t.zip g)

/-- The LayerNorm-then-affine-modulate step x.mul_(1 + mod.scale),
x.add_(mod.shift) applied to a normalized stream, shared by both blocks
(also the value of the non-in-place form (1 + scale) * norm(x) + shift). -/
def modStream (P : Prims) (mo : ModOut) (x : T3) : T3 :=
  addBr (mulBr (ln3 P x) (onePlus3 mo.scale)) mo.shift

/-- Tensor.transpose(1, 2) on one batch element [S, H, D] -> [H, S, D]
(rectangular; realised by indexed selection). -/
def trans12 (m : List Mat) : List Mat :=
  (List.range ((m.headD []).length)).map (fun j => m.map (fun sr => sr.getD j []))

/-- The .view(B, S, H, D).transpose(1, 2) reshape from [B, S, H*D] to
per-head [B, H, S, D]. -/
def toHeadsD (D : ℕ) (x : T3) : T4 :=
  x.map (fun xb => trans12 (xb.map (chunkList D)))

/-- The query-path branch of QKNorm.forward as invoked with a literal None
key (self.norm(q, None, v)); definitionally the some-q/none-k branch of
QKNorm.fwd, with the value-preserving .to(v) cast. -/
def qkFwdQ (P : Prims) (n : QKNorm) (q _v : T4) : T4 := rms4 P n.query_norm.scale q

/-- The key-path branch of QKNorm.forward as invoked with a literal None
query (self.norm(None, k, v)). -/
def qkFwdK (P : Prims) (n : QKNorm) (k _v : T4) : T4 := rms4 P n.key_norm.scale k

/-- torch.cat((a, b), dim=2) on per-head [B, H, S, D] tensors:
concatenation along the joint sequence axis. -/
def catSeq4 (a b : T4) : T4 :=
  List.zipWith (fun ab bb => List.zipWith (· ++ ·) ab bb) a b

/-- Scores of one rotated query against all rotated keys, position-indexed
from j. -/
def rowScoresAux (P : Prims) (iq : Row) : ℕ → Mat → Row
  | _, [] => []
  | j, kj :: rest => dotR iq (P.rot j kj) :: rowScoresAux P iq (j + 1) rest

/-- Softmax weights of a score row (exp-normalize). -/
def softmaxW (P : Prims) (s : Row) : Row :=
  let e := s.map P.exf
  e.map (fun a => a / e.sum)

/-- Attention output for query position i on one head: softmax of the
rotary-rotated scores against the rotated keys, applied to the values. -/
def headOutRow (P : Prims) (i : ℕ) (qi : Row) (kh vh : Mat) : Row :=
  let w := softmaxW P (rowScoresAux P (P.rot i qi) 0 kh)
  sumRows (List.zipWith (fun wj vj => vj.map (fun a => wj * a)) w vh)

/-- Attention rows of one head, indexed over query positions from i. -/
def headOutAux (P : Prims) (kh vh : Mat) : ℕ → Mat → Mat
  | _, [] => []
  | i, qi :: rest => headOutRow P i qi kh vh :: headOutAux P kh vh (i + 1) rest

/-- One attention head: all query positions against one head's keys and
values. -/
def attnHead (P : Prims) (qh kh vh : Mat) : Mat := headOutAux P kh vh 0 qh

/-- Merge per-head outputs [H, S, D] back to [S, H*D]. -/
def mergeHeads (heads : T3) : Mat :=
  (List.range ((heads.headD []).length)).map
    (fun i => (heads.map (fun hh => hh.getD i [])).flatten)

/-- Modelled from the spec: the fused rotary attention primitive imported
from ..math, which is not under src/.  Per the external-interface
contract it takes the per-head rank-4 [q, k, v] list and the positional
encoding, applies the rotary rotation (here P.rot, derived from pe) to
queries and keys before the score computation, performs softmax attention
per head, and returns the output reshaped back to [batch, sequence,
hidden_size]. -/
def attention (P : Prims) (q k v : T4) : T3 :=
  (q.zip (k.zip v)).map
    (fun p =>
      mergeHeads ((p.1.zip (p.2.1.zip p.2.2)).map
        (fun hp => attnHead P hp.1 hp.2.1 hp.2.2)))

/-- The unchunked nn.Sequential(Linear, GELU, Linear) MLP applied to a
rank-3 tensor (as the text stream of DoubleStreamBlock uses it). -/
def mlpApply3 (P : Prims) (mlp : Mlp3) (x : T3) : T3 :=
  x.map (fun xb => xb.map (fun r => applyRow mlp.lin2 ((applyRow mlp.lin1 r).map P.glf)))

/-- DoubleStreamBlock: per-stream modulation, attention components and
MLPs.  The LayerNorms are parameter-free and carry no state. -/
structure DSB where
  num_heads : ℕ
  hidden_size : ℕ
  img_mod : Modulation
  img_attn : SelfAttn
  img_mlp : Mlp3
  txt_mod : Modulation
  txt_attn : SelfAttn
  txt_mlp : Mlp3

/-- DoubleStreamBlock.forward: modulate both streams, project to per-head
q/k/v, QK-normalize, concatenate text-then-image along the sequence axis,
run the shared attention, split back at the original text length, and
apply the two gated residual updates per stream (the image MLP through
split_mlp with the default divide = 8, the text MLP directly). -/
def DSB.fwd (P : Prims) (m : DSB) (img txt : T3) (vec : Mat) :
    Except String (T3 × T3) :=
  match m.img_mod.fwd P vec, m.txt_mod.fwd P vec with
  | (imod1, some imod2), (tmod1, some tmod2) =>
    let imgM := modStream P imod1 img
    let Di := rowWidth imgM / m.num_heads
    let imgV := toHeadsD Di (linear3 m.img_attn.v imgM)
    let imgQ := qkFwdQ P m.img_attn.norm (toHeadsD Di (linear3 m.img_attn.q imgM)) imgV
    let imgK := qkFwdK P m.img_attn.norm (toHeadsD Di (linear3 m.img_attn.k imgM)) imgV
    let txtM := modStream P tmod1 txt
    let Dt := rowWidth txtM / m.num_heads
    let txtV := toHeadsD Dt (linear3 m.txt_attn.v txtM)
    let txtQ := qkFwdQ P m.txt_attn.norm (toHeadsD Dt (linear3 m.txt_attn.q txtM)) txtV
    let txtK := qkFwdK P m.txt_attn.norm (toHeadsD Dt (linear3 m.txt_attn.k txtM)) txtV
    let q := catSeq4 txtQ imgQ
    let k := catSeq4 txtK imgK
    let v := catSeq4 txtV imgV
    let attn := attention P q k v
    let txtLen := (txt.headD []).length
    let txtAttn := attn.map (List.take txtLen)
    let imgAttn := attn.map (List.drop txtLen)
    let img1 := addcmul3 img (linear3 m.img_attn.proj imgAttn) imod1.gate
    match splitMlp3 P m.img_mlp (modStream P imod2 img1) 8 with
    | Except.error e => Except.error e
    | Except.ok modImg2 =>
      let img2 := addcmul3 img1 modImg2 imod2.gate
      let txt1 := addcmul3 txt (linear3 m.txt_attn.proj txtAttn) tmod1.gate
      let txt2 := addcmul3 txt1 (mlpApply3 P m.txt_mlp (modStream P tmod2 txt1)) tmod2.gate
      Except.ok (img2, txt2)
  | _, _ => Except.error msgNoneModulation

/-- SingleStreamBlock: the fused linear1 as its four externally split
sub-projections (per get_linear_split_map), the fused second linear, the
QK normalization and a single (non-double) modulation. -/
structure SSB where
  num_heads : ℕ
  hidden_size : ℕ
  linear1_attn_q : Linear
  linear1_attn_k : Linear
  linear1_attn_v : Linear
  linear1_mlp : Linear
  linear2 : Linear
  norm : QKNorm
  modulation : Modulation

/-- SingleStreamBlock.forward: pre-norm + affine modulation, per-head
q/k/v from the split linear1 projections, QK normalization, the shared
attention, then the chunked (chunk size int(S/6)) parallel attention+MLP
combination through linear2 written back in place, and one gated residual
update of x. -/
def SSB.fwd (P : Prims) (m : SSB) (x : T3) (vec : Mat) : Except String T3 :=
  match m.modulation.fwd P vec with
  | (mod1, _) =>
    let xMod := modStream P mod1 x
    let D := rowWidth xMod / m.num_heads
    let v := toHeadsD D (linear3 m.linear1_attn_v xMod)
    let q := qkFwdQ P m.norm (toHeadsD D (linear3 m.linear1_attn_q xMod)) v
    let k := qkFwdK P m.norm (toHeadsD D (linear3 m.linear1_attn_k xMod)) v
    let attn := attention P q k v
    let S := (xMod.headD []).length
    let rows := xMod.flatten
    let attnRows := attn.flatten
    let cs := S / 6
    if cs = 0 ∧ (rows ≠ [] ∨ attnRows ≠ []) then Except.error msgSplitZero
    else
      let newRows :=
        (((chunkList cs rows).zip (chunkList cs attnRows)).map
          (fun p =>
            (p.2.zip (p.1.map (fun r => (applyRow m.linear1_mlp r).map P.glf))).map
              (fun rr => applyRow m.linear2 (rr.1 ++ rr.2)))).flatten
      Except.ok (addcmul3 x (chunkList S newRows) mod1.gate)

/-- The caller-visible buffers of a DoubleStreamBlock.forward call. -/
structure DSBState where
  img : T3
  txt : T3
  vec : Mat

/-- DoubleStreamBlock.forward at the buffer level: img and txt are updated
in place (addcmul_), while no statement of the forward body targets the
conditioning vector with an in-place operation (it is only read by the two
Modulation calls, which use the functional silu and a fresh linear
output), so the vec buffer after the call holds its pre-call contents. -/
def DSB.call (P : Prims) (m : DSB) (s : DSBState) : Except String DSBState :=
  match DSB.fwd P m s.img s.txt s.vec with
  | Except.error e => Except.error e
  | Except.ok p => Except.ok { img := p.1, txt := p.2, vec := s.vec }

/-- The caller-visible buffers of a SingleStreamBlock.forward call. -/
structure SSBState where
  x : T3
  vec : Mat

/-- SingleStreamBlock.forward at the buffer level: x is updated in place,
vec is only read (as in DSB.call). -/
def SSB.call (P : Prims) (m : SSB) (s : SSBState) : Except String SSBState :=
  match SSB.fwd P m s.x s.vec with
  | Except.error e => Except.error e
  | Except.ok x2 => Except.ok { x := x2, vec := s.vec }

/-- A dtype-tagged rank-1 tensor over the reals (timestep inputs). -/
structure T1R where
  dtype : DType
  data : List ℝ

/-- A dtype-tagged rank-2 tensor over the reals (timestep embeddings). -/
structure T2R where
  dtype : DType
  data : List (List ℝ)

/-- The dim/2 log-spaced frequencies
exp(-log(max_period) * arange(0, half) / half) of timestep_embedding. -/
noncomputable def teFreqs (dim : ℕ) (maxPeriod : ℝ) : List ℝ :=
  (List.range (dim / 2)).map
    (fun i : ℕ => Real.exp (-(Real.log maxPeriod) * (i : ℝ) / ((dim / 2 : ℕ) : ℝ)))

/-- timestep_embedding(t, dim, max_period, time_factor): t is rescaled by
time_factor (a Python float, so an integer input tensor is promoted to the
default float32, and the rebound t is always floating point, making the
final is_floating_point(t) cast unconditional), the embedding row is
[cos(args), sin(args)] for args = t * freqs, a zero column is appended
when dim is odd, and the result is cast to the rebound t dtype. -/
noncomputable def timestepEmbedding (t : T1R) (dim : ℕ) (maxPeriod : ℝ := 10000)
    (timeFactor : ℝ := 1000) : T2R :=
  let tdt := if t.dtype.isFloat then t.dtype else DType.float32
  { dtype := tdt,
    data :=
      t.data.map (fun ti =>
        let args := (teFreqs dim maxPeriod).map (fun f => timeFactor * ti * f)
        args.map Real.cos ++ args.map Real.sin ++
          (if dim % 2 = 1 then [(0 : ℝ)] else [])) }

/-- Shape predicate for rank-2 tensors: n rows of width c. -/
def sh2 (x : Mat) (n c : ℕ) : Prop := x.length = n ∧ ∀ r ∈ x, r.length = c

/-- Shape predicate for rank-3 tensors: [b, s, c]. -/
def sh3 (x : T3) (b s c : ℕ) : Prop := x.length = b ∧ ∀ m2 ∈ x, sh2 m2 s c

/-- Shape predicate for rank-4 tensors: [b, h, s, c]. -/
def sh4 (x : T4) (b h s c : ℕ) : Prop := x.length = b ∧ ∀ t ∈ x, sh3 t h s c

/-- Well-formedness of a DoubleStreamBlock with hidden size C, H heads of
head dim D (H * D = C) and MLP hidden width M: the shapes nn.Linear and
the module constructors guarantee. -/
def DSB.wf (m : DSB) (C H D M : ℕ) : Prop :=
  m.num_heads = H ∧ 1 ≤ H ∧ 1 ≤ D ∧ H * D = C ∧
  m.img_mod.is_double = true ∧ m.txt_mod.is_double = true ∧
  m.img_mod.multiplier = 6 ∧ m.txt_mod.multiplier = 6 ∧
  m.img_mod.lin.wf C (6 * C) ∧ m.txt_mod.lin.wf C (6 * C) ∧
  m.img_attn.q.wf C C ∧ m.img_attn.k.wf C C ∧ m.img_attn.v.wf C C ∧
  m.img_attn.proj.wf C C ∧
  m.txt_attn.q.wf C C ∧ m.txt_attn.k.wf C C ∧ m.txt_attn.v.wf C C ∧
  m.txt_attn.proj.wf C C ∧
  m.img_attn.norm.query_norm.scale.length = D ∧
  m.img_attn.norm.key_norm.scale.length = D ∧
  m.txt_attn.norm.query_norm.scale.length = D ∧
  m.txt_attn.norm.key_norm.scale.length = D ∧
  m.img_mlp.lin1.wf C M ∧ m.img_mlp.lin2.wf M C ∧
  m.txt_mlp.lin1.wf C M ∧ m.txt_mlp.lin2.wf M C

/-- Well-formedness of a SingleStreamBlock with hidden size C, H heads of
head dim D (H * D = C) and MLP hidden width M. -/
def SSB.wf (m : SSB) (C H D M : ℕ) : Prop :=
  m.num_heads = H ∧ 1 ≤ H ∧ 1 ≤ D ∧ H * D = C ∧
  m.modulation.multiplier = 3 ∧ m.modulation.lin.wf C (3 * C) ∧
  m.linear1_attn_q.wf C C ∧ m.linear1_attn_k.wf C C ∧ m.linear1_attn_v.wf C C ∧
  m.linear1_mlp.wf C M ∧ m.linear2.wf (C + M) C ∧
  m.norm.query_norm.scale.length = D ∧ m.norm.key_norm.scale.length = D

/-- An all-zero linear layer with i inputs and o outputs. -/
def zLin (i o : ℕ) : Linear :=
  { weight := List.replicate o (List.replicate i 0), bias := List.replicate o 0 }

/-- An all-zero rank-3 tensor [b, s, c]. -/
def zeros3 (b s c : ℕ) : T3 := List.replicate b (List.replicate s (List.replicate c 0))

/-- An all-zero rank-2 tensor [b, c]. -/
def zeros2 (b c : ℕ) : Mat := List.replicate b (List.replicate c 0)

/-- A Modulation whose linear layer is zero-initialized: shift, scale and
gate all come out zero, which is the identity-centered modulation of the
end-to-end scenario. -/
def zeroModulation (dim : ℕ) (double : Bool) : Modulation :=
  Modulation.init dim double (fun _ _ => 0) (fun _ => 0)

/-- A SelfAttention whose projections are zero-initialized and whose norm
scales are the construction-time torch.ones. -/
def zeroSelfAttn (dim heads : ℕ) : SelfAttn :=
  { q := zLin dim dim, k := zLin dim dim, v := zLin dim dim,
    norm := { query_norm := RMSNormM.init (dim / heads),
              key_norm := RMSNormM.init (dim / heads) },
    proj := zLin dim dim }

/-- A DoubleStreamBlock with hidden size C, H heads and MLP width M whose
additive paths (modulation, projections, MLPs) are all zero-initialized. -/
def zeroDSBg (C H M : ℕ) : DSB :=
  { num_heads := H, hidden_size := C,
    img_mod := zeroModulation C true,
    img_attn := zeroSelfAttn C H,
    img_mlp := { lin1 := zLin C M, lin2 := zLin M C },
    txt_mod := zeroModulation C true,
    txt_attn := zeroSelfAttn C H,
    txt_mlp := { lin1 := zLin C M, lin2 := zLin M C } }

/-- A SingleStreamBlock with hidden size C, H heads and MLP width M whose
linear layers are all zero-initialized. -/
def zeroSSBg (C H M : ℕ) : SSB :=
  { num_heads := H, hidden_size := C,
    linear1_attn_q := zLin C C, linear1_attn_k := zLin C C,
    linear1_attn_v := zLin C C, linear1_mlp := zLin C M,
    linear2 := zLin (C + M) C,
    norm := { query_norm := RMSNormM.init (C / H),
              key_norm := RMSNormM.init (C / H) },
    modulation := zeroModulation C false }

/-- The DoubleStreamBlock(hidden_size=64, num_heads=4, mlp_ratio=4.0) of
the end-to-end scenario, with every additive path (modulation, q/k/v and
output projections, MLP linears) zero-initialized. -/
def zeroDSB64 : DSB := zeroDSBg 64 4 256

/-- The modulated image stream of DoubleStreamBlock.forward (img_norm1
followed by the in-place (1 + scale) multiply and shift add, with the
first image modulation output). -/
def dsbImgM (P : Prims) (m : DSB) (img : T3) (vec : Mat) : T3 :=
  modStream P (m.img_mod.fwd P vec).1 img

/-- The modulated text stream of DoubleStreamBlock.forward. -/
def dsbTxtM (P : Prims) (m : DSB) (txt : T3) (vec : Mat) : T3 :=
  modStream P (m.txt_mod.fwd P vec).1 txt

/-- The per-head value tensor of one stream of DoubleStreamBlock.forward:
the v projection, viewed as [B, S, H, int(C / H)] and transposed to
[B, H, S, D]. -/
def dsbStreamV (P : Prims) (sa : SelfAttn) (H : ℕ) (xm : T3) : T4 :=
  toHeadsD (rowWidth xm / H) (linear3 sa.v xm)

/-- The per-head query tensor of one stream: projected, reshaped and
QK-normalized through the query path of the stream's QKNorm. -/
def dsbStreamQ (P : Prims) (sa : SelfAttn) (H : ℕ) (xm : T3) : T4 :=
  qkFwdQ P sa.norm (toHeadsD (rowWidth xm / H) (linear3 sa.q xm))
    (dsbStreamV P sa H xm)

/-- The per-head key tensor of one stream: projected, reshaped and
QK-normalized through the key path of the stream's QKNorm. -/
def dsbStreamK (P : Prims) (sa : SelfAttn) (H : ℕ) (xm : T3) : T4 :=
  qkFwdK P sa.norm (toHeadsD (rowWidth xm / H) (linear3 sa.k xm))
    (dsbStreamV P sa H xm)

/-- The joint attention output of DoubleStreamBlock.forward: the shared
attention primitive applied to the text-then-image concatenations of the
per-head q, k and v tensors. -/
def dsbAttnOut (P : Prims) (m : DSB) (img txt : T3) (vec : Mat) : T3 :=
  attention P
    (catSeq4 (dsbStreamQ P m.txt_attn m.num_heads (dsbTxtM P m txt vec))
      (dsbStreamQ P m.img_attn m.num_heads (dsbImgM P m img vec)))
    (catSeq4 (dsbStreamK P m.txt_attn m.num_heads (dsbTxtM P m txt vec))
      (dsbStreamK P m.img_attn m.num_heads (dsbImgM P m img vec)))
    (catSeq4 (dsbStreamV P m.txt_attn m.num_heads (dsbTxtM P m txt vec))
      (dsbStreamV P m.img_attn m.num_heads (dsbImgM P m img vec)))

/-- A minimal well-formed DoubleStreamBlock (hidden size 1, one head,
MLP width 1) with zero-initialized linears, for concrete witnesses. -/
def tinyDSB : DSB := zeroDSBg 1 1 1

/-- A minimal well-formed SingleStreamBlock (hidden size 1, one head,
MLP width 1) with zero-initialized linears, for concrete witnesses. -/
def tinySSB : SSB := zeroSSBg 1 1 1

/-- A concrete interpretation of the opaque primitives (identity scalar
kernels and identity rotation), used to instantiate witnesses. -/
def idPrims : Prims :=
  { rsq := id, sq := id, slf := id, glf := id, exf := id, rot := fun _ r => r }

/-- Spec-side formula for chunk i of Modulation.forward: the columns
[i*dim, (i+1)*dim) of the linear output of the SiLU-activated conditioning
vector, with the broadcast sequence dimension. -/
def modSliceSpec (P : Prims) (m : Modulation) (dim : ℕ) (vec : Mat) (i : ℕ) : T3 :=
  vec.map (fun r => [((applyRow m.lin (r.map P.slf)).drop (i * dim)).take dim])

theorem chunkListF_nil (f n : ℕ) : chunkListF f n ([] : List α) = [] := by
  cases f <;> rfl

theorem chunkListF_fuel (n : ℕ) (hn : n ≠ 0) :
    ∀ (f : ℕ) (l : List α), l.length ≤ f → chunkListF f n l = chunkListF l.length n l := by
  intro f
  induction f using Nat.strong_induction_on with
  | _ f ih =>
    intro l hl
    cases f with
    | zero =>
      have : l = [] := List.eq_nil_of_length_eq_zero (by omega)
      subst this
      rfl
    | succ g =>
      cases l with
      | nil => rfl
      | cons a as =>
        show (a :: as).take n :: chunkListF g n ((a :: as).drop n) =
          (a :: as).take n :: chunkListF as.length n ((a :: as).drop n)
        have hd : ((a :: as).drop n).length ≤ as.length := by
          simp only [List.length_drop, List.length_cons]
          omega
        have has : as.length ≤ g := by simpa using hl
        rw [ih g (by omega) _ (le_trans hd has), ih as.length (by omega) _ hd]

theorem chunkList_nil (n : ℕ) : chunkList n ([] : List α) = [] := by
  unfold chunkList
  cases Nat.decEq n 0 <;> simp [chunkListF_nil]

theorem chunkList_eq_cons (n : ℕ) (l : List α) (hn : n ≠ 0) (hl : l ≠ []) :
    chunkList n l = l.take n :: chunkList n (l.drop n) := by
  cases l with
  | nil => exact absurd rfl hl
  | cons a as =>
    unfold chunkList
    rw [if_neg hn, if_neg hn]
    show (a :: as).take n :: chunkListF as.length n ((a :: as).drop n) = _
    rw [chunkListF_fuel n hn as.length ((a :: as).drop n)
      (by simp only [List.length_drop, List.length_cons]; omega)]

theorem flatten_chunkList (n : ℕ) (hn : n ≠ 0) (l : List α) :
    (chunkList n l).flatten = l := by
  cases l with
  | nil => simp [chunkList_nil]
  | cons a as =>
    rw [chunkList_eq_cons n (a :: as) hn (by simp), List.flatten_cons,
      flatten_chunkList n hn ((a :: as).drop n)]
    exact List.take_append_drop n (a :: as)
termination_by l.length
decreasing_by
  simp only [List.length_drop, List.length_cons]
  omega

theorem chunkList_length_exact (n : ℕ) (hn : n ≠ 0) :
    ∀ (m : ℕ) (l : List α), l.length = m * n →
      (chunkList n l).length = m ∧ ∀ c ∈ chunkList n l, c.length = n := by
  intro m
  induction m with
  | zero =>
    intro l hl
    have : l = [] := List.eq_nil_of_length_eq_zero (by simpa using hl)
    subst this
    simp [chunkList_nil]
  | succ k ih =>
    intro l hl
    have hles : n ≤ l.length := by
      rw [hl]
      calc n = 1 * n := (one_mul n).symm
      _ ≤ (k + 1) * n := Nat.mul_le_mul_right n (by omega)
    have hlne : l ≠ [] := by
      intro hc
      rw [hc] at hl
      simp at hl
      omega
    rw [chunkList_eq_cons n l hn hlne]
    have hdrop : (l.drop n).length = k * n := by
      simp only [List.length_drop, hl]
      ring_nf
      omega
    obtain ⟨ih1, ih2⟩ := ih (l.drop n) hdrop
    refine ⟨by simp [ih1], ?_⟩
    intro c hc
    rcases List.mem_cons.mp hc with h1 | h2
    · subst h1
      simp [List.length_take]
      omega
    · exact ih2 c h2

theorem chunkList_getD (n : ℕ) (hn : n ≠ 0) :
    ∀ (i m : ℕ) (l : List α), l.length = m * n → i < m →
      (chunkList n l).getD i [] = (l.drop (i * n)).take n := by
  intro i
  induction i with
  | zero =>
    intro m l hl hm
    have hlne : l ≠ [] := by
      intro hc
      rw [hc] at hl
      simp at hl
      rcases hl with h1 | h1 <;> omega
    rw [chunkList_eq_cons n l hn hlne]
    simp
  | succ j ih =>
    intro m l hl hm
    have hlne : l ≠ [] := by
      intro hc
      rw [hc] at hl
      simp at hl
      rcases hl with h1 | h1 <;> omega
    rw [chunkList_eq_cons n l hn hlne]
    have hdrop : (l.drop n).length = (m - 1) * n := by
      simp only [List.length_drop, hl]
      rw [Nat.sub_mul, one_mul]
    have := ih (m - 1) (l.drop n) hdrop (by omega)
    simp only [List.getD_cons_succ, this, List.drop_drop]
    congr 2
    ring

theorem chunkList_replicate (n m : ℕ) (hn : n ≠ 0) (a : α) :
    chunkList n (List.replicate (m * n) a) = List.replicate m (List.replicate n a) := by
  induction m with
  | zero => simp [chunkList_nil]
  | succ k ih =>
    have hne : List.replicate ((k + 1) * n) a ≠ [] := by
      intro hc
      have := congrArg List.length hc
      simp at this
      omega
    rw [chunkList_eq_cons n _ hn hne]
    rw [List.take_replicate, List.drop_replicate]
    have h1 : min n ((k + 1) * n) = n := by
      have : n ≤ (k + 1) * n := by nlinarith
      omega
    have h2 : (k + 1) * n - n = k * n := by ring_nf; omega
    rw [h1, h2, ih]
    rfl

theorem getD_replicate_lt (a d : α) : ∀ (i n : ℕ), i < n →
    (List.replicate n a).getD i d = a := by
  intro i
  induction i with
  | zero =>
    intro n hn
    cases n with
    | zero => omega
    | succ k => rfl
  | succ j ih =>
    intro n hn
    cases n with
    | zero => omega
    | succ k =>
      simp only [List.replicate_succ, List.getD_cons_succ]
      exact ih k (by omega)

theorem zipWith_rep (f : α → β → γ) (n : ℕ) (a : α) (b : β) :
    List.zipWith f (List.replicate n a) (List.replicate n b) =
      List.replicate n (f a b) := by
  induction n with
  | zero => rfl
  | succ k ih => simp [List.replicate_succ, ih]

theorem flatten_replicate (m n : ℕ) (a : α) :
    (List.replicate m (List.replicate n a)).flatten = List.replicate (m * n) a := by
  induction m with
  | zero => simp
  | succ k ih =>
    simp only [List.replicate_succ, List.flatten_cons, ih]
    rw [show (k + 1) * n = n + k * n by ring, List.replicate_add]

theorem sumRows_of_all_zero (d : ℕ) :
    ∀ (l : Mat), l ≠ [] → (∀ r ∈ l, r = List.replicate d 0) →
      sumRows l = List.replicate d 0 := by
  intro l
  induction l with
  | nil => intro h; exact absurd rfl h
  | cons r rs ih =>
    intro _ hall
    cases rs with
    | nil =>
      simpa [sumRows] using hall r (by simp)
    | cons r2 rs2 =>
      have hr : r = List.replicate d 0 := hall r (by simp)
      have : sumRows (r2 :: rs2) = List.replicate d 0 :=
        ih (by simp) (fun s hs => hall s (List.mem_cons_of_mem r hs))
      show List.zipWith (· + ·) r (sumRows (r2 :: rs2)) = List.replicate d 0
      rw [hr, this, zipWith_rep]
      simp

theorem map_flatten_own (f : α → β) (L : List (List α)) :
    (L.flatten).map f = (L.map (List.map f)).flatten := by
  induction L with
  | nil => rfl
  | cons a as ih => simp [ih]

theorem splitMlp_ok (f g h : Row → Row) (xshape : List ℕ) (rows : Mat)
    (divide : ℕ) (hdiv : 1 ≤ divide) (hseq : divide ≤ xshape.getD 1 0) :
    splitMlp f g h xshape rows divide = Except.ok (unchunkedMlp f g h rows) := by
  have hcs : xshape.getD 1 0 / divide ≠ 0 :=
    Nat.pos_iff_ne_zero.mp (Nat.div_pos hseq (by omega))
  unfold splitMlp unchunkedMlp
  simp only [hcs, false_and, if_neg, ite_false]
  rw [← map_flatten_own, flatten_chunkList _ hcs]

/-- C1: split_mlp(mlp, x, divide) returns the same values as the unchunked
3-stage MLP mlp[2](mlp[1](mlp[0](x))) applied to the whole tensor, for
every 3-stage weight assignment (arbitrary row-wise stages f, g, h whose
composite preserves the row width) and every tensor of rank at least 2 —
amended: provided x.shape[1] >= divide, so that the computed chunk size
int(x.shape[1] / divide) is at least one row; this includes every chunk
count that does not evenly divide the token dimension (the final short
chunk is processed like the others).  When 0 < x.shape[1] < divide the
chunk size is zero and split_mlp raises instead (see the
counterexample). -/
theorem c1_split_mlp_matches_unchunked (f g h : Row → Row) (xshape : List ℕ)
    (rows : Mat) (divide : ℕ) (hrank : 2 ≤ xshape.length) (hdiv : 1 ≤ divide)
    (hseq : divide ≤ xshape.getD 1 0)
    (hW : ∀ r ∈ rows, (h (g (f r))).length = r.length) :
    splitMlp f g h xshape rows divide = Except.ok (unchunkedMlp f g h rows) :=
  splitMlp_ok f g h xshape rows divide hdiv hseq

/-- Witness for C1 at a concrete input: a rank-3 shape [1, 3, 1] with
divide = 2, a chunk count that does not evenly divide the 3 token rows. -/
theorem c1_witness :
    (2 ≤ ([1, 3, 1] : List ℕ).length ∧ 1 ≤ 2 ∧ 2 ≤ ([1, 3, 1] : List ℕ).getD 1 0 ∧
      (∀ r ∈ ([[(1 : ℚ)], [2], [3]] : Mat), (id (id (id r))).length = r.length)) ∧
    splitMlp id id id [1, 3, 1] [[(1 : ℚ)], [2], [3]] 2 =
      Except.ok (unchunkedMlp id id id [[(1 : ℚ)], [2], [3]]) :=
  ⟨⟨by decide, by decide, by decide, by decide⟩,
    c1_split_mlp_matches_unchunked id id id [1, 3, 1] [[(1 : ℚ)], [2], [3]] 2
      (by decide) (by decide) (by decide) (by decide)⟩

/-- Counterexample to C1 as stated: for the rank-2 tensor of shape [2, 4]
with the default divide = 8, the chunk size int(4 / 8) is zero and
split_mlp raises the torch.split error instead of returning the unchunked
MLP value (which is well defined and equal to the input for identity
stages). -/
theorem c1_counterexample :
    splitMlp id id id [2, 4] [List.replicate 4 (1 : ℚ), List.replicate 4 1] 8 =
      Except.error msgSplitZero ∧
    unchunkedMlp id id id [List.replicate 4 (1 : ℚ), List.replicate 4 1] =
      [List.replicate 4 (1 : ℚ), List.replicate 4 1] := by
  constructor
  · rfl
  · rfl

theorem getD_append_ge (l1 l2 : List α) (d : α) :
    ∀ n : ℕ, l1.length ≤ n → (l1 ++ l2).getD n d = l2.getD (n - l1.length) d := by
  induction l1 with
  | nil => intro n _; simp
  | cons a as ih =>
    intro n hn
    cases n with
    | zero => simp at hn
    | succ m =>
      simp only [List.cons_append, List.getD_cons_succ, List.length_cons]
      rw [ih m (by simpa using hn)]
      congr 1
      omega

/-- C3: RMSNorm.forward returns a tensor of the same shape as x, with
values x * rsqrt(mean(x^2) + 1e-6) * scale (the mean-square computed over
the last dimension; exact on the modelled values, so the float32
computation is value-faithful) — amended: the result dtype equals the
input dtype exactly when PyTorch promotion of the input dtype with the
learned scale parameter dtype is the input dtype (true for float32 and
float64 inputs against the default float32 parameter, false for float16
and bfloat16 inputs, see the counterexample), because the source casts
back to the input dtype before multiplying by the scale parameter. -/
theorem c3_rmsnorm_shape_value_dtype (P : Prims) (m : RMSNormM) (x : T2D)
    (hd : promoteD x.dtype m.sdtype = x.dtype)
    (hw : ∀ r ∈ x.data, r.length = m.scale.length) :
    (rmsForwardT P m x).dtype = x.dtype ∧
    (rmsForwardT P m x).data.map List.length = x.data.map List.length ∧
    (rmsForwardT P m x).data = x.data.map (fun r =>
      List.zipWith
        (fun a s =>
          a * P.rsq ((r.map (fun b => b ^ 2)).sum / (r.length : ℚ) + 1 / 1000000) * s)
        r m.scale) := by
  refine ⟨by simp [rmsForwardT, hd], ?_, rfl⟩
  show (x.data.map (rmsRow P m.scale)).map List.length = x.data.map List.length
  rw [List.map_map]
  apply List.map_congr_left
  intro r hr
  simp only [Function.comp_apply, rmsRow, List.length_zipWith]
  rw [hw r hr]
  omega

/-- Witness for C3 at a concrete float32 input of shape [1, 2]. -/
theorem c3_witness :
    (promoteD DType.float32 (RMSNormM.init 2).sdtype = DType.float32 ∧
      (∀ r ∈ (T2D.mk DType.float32 [[1, 2]]).data, r.length = (RMSNormM.init 2).scale.length)) ∧
    ((rmsForwardT idPrims (RMSNormM.init 2) ⟨DType.float32, [[1, 2]]⟩).dtype = DType.float32 ∧
      (rmsForwardT idPrims (RMSNormM.init 2) ⟨DType.float32, [[1, 2]]⟩).data.map List.length =
        (T2D.mk DType.float32 [[1, 2]]).data.map List.length ∧
      (rmsForwardT idPrims (RMSNormM.init 2) ⟨DType.float32, [[1, 2]]⟩).data =
        (T2D.mk DType.float32 [[1, 2]]).data.map (fun r =>
          List.zipWith
            (fun a s =>
              a * idPrims.rsq ((r.map (fun b => b ^ 2)).sum / (r.length : ℚ) + 1 / 1000000) * s)
            r (RMSNormM.init 2).scale)) :=
  ⟨⟨by decide, by decide⟩,
    c3_rmsnorm_shape_value_dtype idPrims (RMSNormM.init 2) ⟨DType.float32, [[1, 2]]⟩
      (by decide) (by decide)⟩

/-- Counterexample to C3 as stated: a float16 input to a
default-constructed RMSNorm (float32 scale parameter) comes out float32,
because the post-cast multiplication by the scale parameter re-promotes
the result; the output dtype differs from the input dtype. -/
theorem c3_counterexample :
    (rmsForwardT idPrims (RMSNormM.init 1) ⟨DType.float16, [[1]]⟩).dtype = DType.float32 ∧
    DType.float32 ≠ DType.float16 :=
  ⟨rfl, by decide⟩

/-- C4: under the one-non-null contract of QKNorm.forward, the query-path
result (k = None) is a function of q, the query-norm parameters and (only
through the .to(v) cast) the dtype of v: varying v among tensors of equal
dtype, or varying the key-norm parameters, leaves it unchanged; and
symmetrically the key-path result (q = None) is independent of q (indeed
of any q argument, null or not) and of the query-norm parameters. -/
theorem c4_qknorm_path_independence (P : Prims) (n : QKNorm) (q : T4D) (k : T4D)
    (v v2 : T4D) (hv : v.dtype = v2.dtype) :
    QKNorm.fwdT P n (some q) none v = QKNorm.fwdT P n (some q) none v2 ∧
    (∀ q1 q2 : Option T4D,
      QKNorm.fwdT P n q1 (some k) v = QKNorm.fwdT P n q2 (some k) v) ∧
    (∀ n2 : QKNorm, n2.query_norm = n.query_norm →
      QKNorm.fwdT P n2 (some q) none v = QKNorm.fwdT P n (some q) none v) ∧
    (∀ n2 : QKNorm, n2.key_norm = n.key_norm →
      QKNorm.fwdT P n2 none (some k) v = QKNorm.fwdT P n none (some k) v) := by
  refine ⟨?_, ?_, ?_, ?_⟩
  · simp [QKNorm.fwdT, hv]
  · intro q1 q2
    cases q1 <;> cases q2 <;> rfl
  · intro n2 hq
    simp [QKNorm.fwdT, hq]
  · intro n2 hk
    simp [QKNorm.fwdT, hk]

/-- Witness for C4: same q, two different value tensors of equal dtype. -/
theorem c4_witness :
    ((T4D.mk DType.float32 [[[[1]]]]).dtype = (T4D.mk DType.float32 [[[[2]]]]).dtype) ∧
    QKNorm.fwdT idPrims ⟨RMSNormM.init 1, RMSNormM.init 1⟩
        (some ⟨DType.float32, [[[[3]]]]⟩) none ⟨DType.float32, [[[[1]]]]⟩ =
      QKNorm.fwdT idPrims ⟨RMSNormM.init 1, RMSNormM.init 1⟩
        (some ⟨DType.float32, [[[[3]]]]⟩) none ⟨DType.float32, [[[[2]]]]⟩ :=
  ⟨rfl,
    (c4_qknorm_path_independence idPrims ⟨RMSNormM.init 1, RMSNormM.init 1⟩
      ⟨DType.float32, [[[[3]]]]⟩ ⟨DType.float32, [[[[3]]]]⟩
      ⟨DType.float32, [[[[1]]]]⟩ ⟨DType.float32, [[[[2]]]]⟩ rfl).1⟩

/-- C5: timestep_embedding(t, dim) has shape [N, dim]; when dim is odd
the last column is the appended all-zero pad column; and for a
floating-point input the result is cast to the input dtype — amended: for
even dim column dim-1 is the highest-frequency sine column, which is not
in general non-zero (it vanishes at t = 0, see the counterexample), so
the non-zeroness part of the claim is dropped. -/
theorem c5_timestep_embedding_shape (t : T1R) (dim : ℕ) (maxP timeF : ℝ)
    (hdim : 1 ≤ dim) :
    ((timestepEmbedding t dim maxP timeF).data.length = t.data.length ∧
      ∀ row ∈ (timestepEmbedding t dim maxP timeF).data, row.length = dim) ∧
    (dim % 2 = 1 →
      ∀ row ∈ (timestepEmbedding t dim maxP timeF).data, row.getD (dim - 1) 0 = 0) ∧
    (t.dtype.isFloat = true → (timestepEmbedding t dim maxP timeF).dtype = t.dtype) := by
  have hfl : (teFreqs dim maxP).length = dim / 2 := by
    unfold teFreqs
    rw [List.length_map, List.length_range]
  refine ⟨⟨by simp [timestepEmbedding], ?_⟩, ?_, ?_⟩
  · intro row hrow
    simp only [timestepEmbedding, List.mem_map] at hrow
    obtain ⟨ti, _, hrow⟩ := hrow
    subst hrow
    simp only [List.length_append, List.length_map, hfl]
    rcases Nat.even_or_odd dim with he | ho
    · have : dim % 2 = 0 := Nat.even_iff.mp he
      simp [this]
      omega
    · have : dim % 2 = 1 := Nat.odd_iff.mp ho
      simp [this]
      omega
  · intro hodd row hrow
    simp only [timestepEmbedding, List.mem_map] at hrow
    obtain ⟨ti, _, hrow⟩ := hrow
    subst hrow
    simp only [hodd, if_pos]
    rw [List.append_assoc, getD_append_ge, getD_append_ge]
    · simp
    · simp only [List.length_map, hfl]
      omega
    · simp only [List.length_append, List.length_map, hfl]
      omega
  · intro hf
    simp [timestepEmbedding, hf]

/-- Witness for C5 at dim = 3 (odd) with a float32 input. -/
theorem c5_witness :
    (1 ≤ 3) ∧
    (((timestepEmbedding ⟨DType.float32, [1]⟩ 3 10000 1000).data.length =
        (T1R.mk DType.float32 [1]).data.length ∧
      ∀ row ∈ (timestepEmbedding ⟨DType.float32, [1]⟩ 3 10000 1000).data,
        row.length = 3) ∧
    (3 % 2 = 1 →
      ∀ row ∈ (timestepEmbedding ⟨DType.float32, [1]⟩ 3 10000 1000).data,
        row.getD (3 - 1) 0 = 0) ∧
    ((T1R.mk DType.float32 [1]).dtype.isFloat = true →
      (timestepEmbedding ⟨DType.float32, [1]⟩ 3 10000 1000).dtype =
        (T1R.mk DType.float32 [1]).dtype)) :=
  ⟨by omega, c5_timestep_embedding_shape ⟨DType.float32, [1]⟩ 3 10000 1000 (by omega)⟩

/-- Counterexample to C5 as stated: dim = 2 is even, yet at t = 0 the
embedding row is [cos 0, sin 0] = [1, 0] and column dim-1 is identically
zero, contradicting the claimed non-zeroness for even dim. -/
theorem c5_counterexample :
    2 % 2 = 0 ∧
    (timestepEmbedding ⟨DType.float32, [0]⟩ 2 10000 1000).data = [[1, 0]] ∧
    (timestepEmbedding ⟨DType.float32, [0]⟩ 2 10000 1000).data.map
      (fun r => r.getD (2 - 1) 0) = [0] := by
  have hdata : (timestepEmbedding ⟨DType.float32, [0]⟩ 2 10000 1000).data = [[1, 0]] := by
    unfold timestepEmbedding teFreqs
    norm_num [List.range_succ]
  exact ⟨rfl, hdata, by rw [hdata]; rfl⟩

theorem applyRow_length (m : Linear) (inF outF : ℕ) (hm : m.wf inF outF) (r : Row) :
    (applyRow m r).length = outF := by
  simp [applyRow, List.length_zipWith, hm.1, hm.2.2]

theorem ceilDiv_exact (c dim : ℕ) (hc : 0 < c) : (c * dim + c - 1) / c = dim := by
  have hcm : c * dim = dim * c := Nat.mul_comm c dim
  have h1 : c * dim + c - 1 = (c - 1) + dim * c := by omega
  rw [h1, Nat.add_mul_div_right _ _ hc, Nat.div_eq_of_lt (by omega)]
  omega

theorem modInit_lin_wf (dim : ℕ) (double : Bool) (wg : ℕ → ℕ → ℚ) (bg : ℕ → ℚ) :
    (Modulation.init dim double wg bg).lin.wf dim
      ((Modulation.init dim double wg bg).multiplier * dim) := by
  unfold Modulation.init Linear.wf
  cases double <;>
    simp only [] <;>
    refine ⟨by simp, fun w hw => ?_, by simp⟩ <;>
    · simp only [List.mem_map] at hw
      obtain ⟨j, _, hj⟩ := hw
      simp [← hj]

theorem modInit_piece_eq (P : Prims) (dim : ℕ) (double : Bool) (wg : ℕ → ℕ → ℚ)
    (bg : ℕ → ℚ) (vec : Mat) (i : ℕ) (hdim : 1 ≤ dim)
    (hi : i < (Modulation.init dim double wg bg).multiplier) :
    (Modulation.init dim double wg bg).piece P vec i =
      modSliceSpec P (Modulation.init dim double wg bg) dim vec i := by
  have hmultpos : 0 < (Modulation.init dim double wg bg).multiplier := by
    unfold Modulation.init
    cases double <;> simp
  unfold Modulation.piece modSliceSpec
  apply List.map_congr_left
  intro r _
  congr 1
  have hlen : (applyRow (Modulation.init dim double wg bg).lin (r.map P.slf)).length =
      (Modulation.init dim double wg bg).multiplier * dim :=
    applyRow_length _ _ _ (modInit_lin_wf dim double wg bg) _
  unfold torchChunk
  rw [hlen, ceilDiv_exact _ _ hmultpos]
  exact chunkList_getD dim (by omega) i _ _ hlen hi

/-- C8: Modulation.forward always returns a first ModulationOut whose
shift, scale, gate are the first three hidden_size-wide chunks of the
linear output of the SiLU-activated conditioning vector (explicitly, the
column slices [0,d), [d,2d), [2d,3d)), and returns a second ModulationOut
from the next three chunks exactly when the instance was constructed with
double = True (None otherwise); the linear layer has multiplier * dim
output features with multiplier = 6 if double else 3. -/
theorem c8_modulation_chunks (P : Prims) (dim : ℕ) (double : Bool)
    (wg : ℕ → ℕ → ℚ) (bg : ℕ → ℚ) (vec : Mat) (hdim : 1 ≤ dim) :
    (Modulation.init dim double wg bg).multiplier = (if double then 6 else 3) ∧
    (Modulation.init dim double wg bg).lin.weight.length =
      (Modulation.init dim double wg bg).multiplier * dim ∧
    ((Modulation.init dim double wg bg).fwd P vec).1 =
      { shift := modSliceSpec P (Modulation.init dim double wg bg) dim vec 0,
        scale := modSliceSpec P (Modulation.init dim double wg bg) dim vec 1,
        gate := modSliceSpec P (Modulation.init dim double wg bg) dim vec 2 } ∧
    ((Modulation.init dim double wg bg).fwd P vec).2 =
      (if double then
        some
          { shift := modSliceSpec P (Modulation.init dim double wg bg) dim vec 3,
            scale := modSliceSpec P (Modulation.init dim double wg bg) dim vec 4,
            gate := modSliceSpec P (Modulation.init dim double wg bg) dim vec 5 }
      else none) := by
  have hmult : (Modulation.init dim double wg bg).multiplier = (if double then 6 else 3) := by
    unfold Modulation.init
    cases double <;> simp
  have hwf := modInit_lin_wf dim double wg bg
  have hp : ∀ i, i < (Modulation.init dim double wg bg).multiplier →
      (Modulation.init dim double wg bg).piece P vec i =
        modSliceSpec P (Modulation.init dim double wg bg) dim vec i :=
    fun i hi => modInit_piece_eq P dim double wg bg vec i hdim hi
  have hlt : ∀ i, i < 3 → i < (Modulation.init dim double wg bg).multiplier := by
    intro i hi
    rw [hmult]
    cases double <;> simp <;> omega
  refine ⟨hmult, hwf.1, ?_, ?_⟩
  · show ModOut.mk ((Modulation.init dim double wg bg).piece P vec 0)
      ((Modulation.init dim double wg bg).piece P vec 1)
      ((Modulation.init dim double wg bg).piece P vec 2) = _
    rw [hp 0 (hlt 0 (by omega)), hp 1 (hlt 1 (by omega)), hp 2 (hlt 2 (by omega))]
  · cases double with
    | false =>
      show (if (Modulation.init dim false wg bg).is_double then
          some (ModOut.mk ((Modulation.init dim false wg bg).piece P vec 3)
            ((Modulation.init dim false wg bg).piece P vec 4)
            ((Modulation.init dim false wg bg).piece P vec 5))
        else none) = _
      simp [Modulation.init]
    | true =>
      have hlt6 : ∀ i, i < 6 → i < (Modulation.init dim true wg bg).multiplier := by
        intro i hi
        rw [hmult]
        simp
        omega
      show (if (Modulation.init dim true wg bg).is_double then
          some (ModOut.mk ((Modulation.init dim true wg bg).piece P vec 3)
            ((Modulation.init dim true wg bg).piece P vec 4)
            ((Modulation.init dim true wg bg).piece P vec 5))
        else none) = _
      rw [hp 3 (hlt6 3 (by omega)), hp 4 (hlt6 4 (by omega)), hp 5 (hlt6 5 (by omega))]
      simp [Modulation.init]

/-- Witness for C8 at dim = 1, double = true, on a concrete conditioning
vector. -/
theorem c8_witness :
    (1 ≤ 1) ∧
    ((Modulation.init 1 true (fun _ _ => 1) (fun _ => 0)).multiplier =
      (if true then 6 else 3) ∧
    (Modulation.init 1 true (fun _ _ => 1) (fun _ => 0)).lin.weight.length =
      (Modulation.init 1 true (fun _ _ => 1) (fun _ => 0)).multiplier * 1 ∧
    ((Modulation.init 1 true (fun _ _ => 1) (fun _ => 0)).fwd idPrims [[2]]).1 =
      { shift := modSliceSpec idPrims (Modulation.init 1 true (fun _ _ => 1) (fun _ => 0)) 1 [[2]] 0,
        scale := modSliceSpec idPrims (Modulation.init 1 true (fun _ _ => 1) (fun _ => 0)) 1 [[2]] 1,
        gate := modSliceSpec idPrims (Modulation.init 1 true (fun _ _ => 1) (fun _ => 0)) 1 [[2]] 2 } ∧
    ((Modulation.init 1 true (fun _ _ => 1) (fun _ => 0)).fwd idPrims [[2]]).2 =
      (if true then
        some
          { shift := modSliceSpec idPrims (Modulation.init 1 true (fun _ _ => 1) (fun _ => 0)) 1 [[2]] 3,
            scale := modSliceSpec idPrims (Modulation.init 1 true (fun _ _ => 1) (fun _ => 0)) 1 [[2]] 4,
            gate := modSliceSpec idPrims (Modulation.init 1 true (fun _ _ => 1) (fun _ => 0)) 1 [[2]] 5 }
      else none)) :=
  ⟨by omega,
    c8_modulation_chunks idPrims 1 true (fun _ _ => 1) (fun _ => 0) [[2]] (by omega)⟩

theorem splitMlp_error_only (f g h : Row → Row) (xshape : List ℕ) (rows : Mat)
    (divide : ℕ) (e : String)
    (hE : splitMlp f g h xshape rows divide = Except.error e) : e = msgSplitZero := by
  unfold splitMlp at hE
  by_cases hc : xshape.getD 1 0 / divide = 0 ∧ rows ≠ []
  · rw [if_pos hc] at hE
    exact (Except.error.injEq _ _ ▸ hE).symm
  · rw [if_neg hc] at hE
    exact absurd hE (by simp)

theorem splitMlp3_error_only (P : Prims) (mlp : Mlp3) (x : T3) (divide : ℕ)
    (e : String) (hE : splitMlp3 P mlp x divide = Except.error e) :
    e = msgSplitZero := by
  unfold splitMlp3 at hE
  simp only [] at hE
  cases hS : splitMlp (applyRow mlp.lin1) (fun r => r.map P.glf) (applyRow mlp.lin2)
      [x.length, (x.headD []).length, ((x.headD []).headD []).length] x.flatten divide with
  | error e2 =>
    rw [hS] at hE
    simp only [Except.error.injEq] at hE
    rw [hE] at hS
    exact splitMlp_error_only _ _ _ _ _ _ _ hS
  | ok rows =>
    rw [hS] at hE
    exact absurd hE (by simp)

/-- C10: SelfAttention.forward raises on every call (it never returns a
value), while DoubleStreamBlock.forward and SingleStreamBlock.forward are
built solely from the component projections q, k, v, norm, proj and no
input whatsoever can surface the not-implemented failure through them. -/
theorem c10_selfattention_placeholder :
    (∀ (sa : SelfAttn) (x : T3) (pe : ℕ → Row → Row),
      SelfAttn.fwd sa x pe = Except.error msgNotImplemented) ∧
    (∀ (P : Prims) (m : DSB) (img txt : T3) (vec : Mat),
      DSB.fwd P m img txt vec ≠ Except.error msgNotImplemented) ∧
    (∀ (P : Prims) (m : SSB) (x : T3) (vec : Mat),
      SSB.fwd P m x vec ≠ Except.error msgNotImplemented) := by
  refine ⟨fun sa x pe => rfl, ?_, ?_⟩
  · intro P m img txt vec
    unfold DSB.fwd
    cases h1 : m.img_mod.fwd P vec with
    | mk im1 iop =>
      cases h2 : m.txt_mod.fwd P vec with
      | mk tm1 top =>
        cases iop with
        | none =>
          simp only []
          intro hc
          simp only [Except.error.injEq] at hc
          exact absurd hc (by decide)
        | some im2 =>
          cases top with
          | none =>
            simp only []
            intro hc
            simp only [Except.error.injEq] at hc
            exact absurd hc (by decide)
          | some tm2 =>
            simp only []
            cases h3 : splitMlp3 P m.img_mlp
                (modStream P im2
                  (addcmul3 img
                    (linear3 m.img_attn.proj
                      ((attention P
                        (catSeq4
                          (qkFwdQ P m.txt_attn.norm
                            (toHeadsD (rowWidth (modStream P tm1 txt) / m.num_heads)
                              (linear3 m.txt_attn.q (modStream P tm1 txt)))
                            (toHeadsD (rowWidth (modStream P tm1 txt) / m.num_heads)
                              (linear3 m.txt_attn.v (modStream P tm1 txt))))
                          (qkFwdQ P m.img_attn.norm
                            (toHeadsD (rowWidth (modStream P im1 img) / m.num_heads)
                              (linear3 m.img_attn.q (modStream P im1 img)))
                            (toHeadsD (rowWidth (modStream P im1 img) / m.num_heads)
                              (linear3 m.img_attn.v (modStream P im1 img)))))
                        (catSeq4
                          (qkFwdK P m.txt_attn.norm
                            (toHeadsD (rowWidth (modStream P tm1 txt) / m.num_heads)
                              (linear3 m.txt_attn.k (modStream P tm1 txt)))
                            (toHeadsD (rowWidth (modStream P tm1 txt) / m.num_heads)
                              (linear3 m.txt_attn.v (modStream P tm1 txt))))
                          (qkFwdK P m.img_attn.norm
                            (toHeadsD (rowWidth (modStream P im1 img) / m.num_heads)
                              (linear3 m.img_attn.k (modStream P im1 img)))
                            (toHeadsD (rowWidth (modStream P im1 img) / m.num_heads)
                              (linear3 m.img_attn.v (modStream P im1 img)))))
                        (catSeq4
                          (toHeadsD (rowWidth (modStream P tm1 txt) / m.num_heads)
                            (linear3 m.txt_attn.v (modStream P tm1 txt)))
                          (toHeadsD (rowWidth (modStream P im1 img) / m.num_heads)
                            (linear3 m.img_attn.v (modStream P im1 img))))).map
                        (List.drop ((txt.headD []).length))))
                    im1.gate)) 8 with
            | error e =>
              intro hc
              simp only [Except.error.injEq] at hc
              have := splitMlp3_error_only P m.img_mlp _ 8 e h3
              rw [this] at hc
              exact absurd hc (by decide)
            | ok d =>
              intro hc
              exact absurd hc (by simp)
  · intro P m x vec
    unfold SSB.fwd
    cases h1 : m.modulation.fwd P vec with
    | mk mod1 rest =>
      simp only []
      split
      · intro hc
        simp only [Except.error.injEq] at hc
        exact absurd hc (by decide)
      · intro hc
        exact absurd hc (by simp)

theorem map_const_own (l : List α) (c : β) :
    l.map (fun _ => c) = List.replicate l.length c := by
  induction l with
  | nil => rfl
  | cons a as ih => simp [List.replicate_succ, ih]

theorem sum_replicate_zero (n : ℕ) : (List.replicate n (0 : ℚ)).sum = 0 := by
  induction n with
  | zero => rfl
  | succ k ih => simp [List.replicate_succ, ih]

theorem zipWith_absorb_left (g : ℚ → ℚ → ℚ) (hg : ∀ b, g 0 b = 0) :
    ∀ (n : ℕ) (l : Row), List.zipWith g (List.replicate n 0) l =
      List.replicate (min n l.length) 0 := by
  intro n
  induction n with
  | zero => intro l; simp
  | succ k ih =>
    intro l
    cases l with
    | nil => simp
    | cons b bs =>
      simp only [List.replicate_succ, List.zipWith_cons_cons, hg, List.length_cons, ih bs]
      rw [show min (k + 1) (bs.length + 1) = (min k bs.length) + 1 by omega]
      rfl

theorem dotR_zero_left (i : ℕ) (r : Row) : dotR (List.replicate i 0) r = 0 := by
  unfold dotR
  rw [zipWith_absorb_left (· * ·) (fun b => zero_mul b), sum_replicate_zero]

theorem applyRow_zLin (i o : ℕ) (r : Row) : applyRow (zLin i o) r = List.replicate o 0 := by
  unfold applyRow zLin
  simp only [List.map_replicate, dotR_zero_left]
  rw [zipWith_rep]
  simp

theorem headD_replicate (n : ℕ) (hn : n ≠ 0) (a d : α) :
    (List.replicate n a).headD d = a := by
  cases n with
  | zero => omega
  | succ k => rfl

theorem zip_replicate_own (n : ℕ) (a : α) (b : β) :
    (List.replicate n a).zip (List.replicate n b) = List.replicate n (a, b) := by
  induction n with
  | zero => rfl
  | succ k ih => simp [List.replicate_succ, ih]

theorem lnRow_zero (P : Prims) (c : ℕ) :
    lnRow P (List.replicate c 0) = List.replicate c 0 := by
  unfold lnRow
  simp [sum_replicate_zero, List.map_replicate]

theorem ln3_zeros (P : Prims) (b s c : ℕ) :
    ln3 P (zeros3 b s c) = zeros3 b s c := by
  unfold ln3 zeros3
  simp [List.map_replicate, lnRow_zero]

theorem rmsRow_zero (P : Prims) (scale : Row) (d : ℕ) :
    rmsRow P scale (List.replicate d 0) = List.replicate (min d scale.length) 0 := by
  unfold rmsRow
  rw [zipWith_absorb_left (fun a s => a * _ * s) (fun b => by ring)]

theorem linear3_zLin_zeros (i o b s c : ℕ) :
    linear3 (zLin i o) (zeros3 b s c) = zeros3 b s o := by
  unfold linear3 zeros3
  simp [List.map_replicate, applyRow_zLin]

theorem zeroModulation_eq (dim : ℕ) (db : Bool) :
    zeroModulation dim db =
      { is_double := db, multiplier := if db then 6 else 3,
        lin := zLin dim ((if db then 6 else 3) * dim) } := by
  unfold zeroModulation Modulation.init zLin
  cases db <;> simp [map_const_own, List.length_range]

theorem zeroModulation_piece (P : Prims) (dim : ℕ) (db : Bool) (b i : ℕ)
    (hdim : dim ≠ 0) (hi : i < (if db then 6 else 3)) :
    (zeroModulation dim db).piece P (zeros2 b dim) i = zeros3 b 1 dim := by
  have hmp : (0 : ℕ) < (if db then 6 else 3) := by cases db <;> norm_num
  rw [zeroModulation_eq]
  unfold Modulation.piece zeros2 zeros3
  simp only [List.map_replicate]
  congr 1
  rw [applyRow_zLin]
  unfold torchChunk
  rw [List.length_replicate, ceilDiv_exact _ _ hmp, chunkList_replicate dim _ hdim,
    getD_replicate_lt _ _ i _ hi]
  rfl

theorem zeroModulation_fwd_double (P : Prims) (dim b : ℕ) (hdim : dim ≠ 0) :
    (zeroModulation dim true).fwd P (zeros2 b dim) =
      (ModOut.mk (zeros3 b 1 dim) (zeros3 b 1 dim) (zeros3 b 1 dim),
        some (ModOut.mk (zeros3 b 1 dim) (zeros3 b 1 dim) (zeros3 b 1 dim))) := by
  unfold Modulation.fwd
  have hd : (zeroModulation dim true).is_double = true := by rw [zeroModulation_eq]
  rw [hd,
    zeroModulation_piece P dim true b 0 hdim (by norm_num),
    zeroModulation_piece P dim true b 1 hdim (by norm_num),
    zeroModulation_piece P dim true b 2 hdim (by norm_num),
    zeroModulation_piece P dim true b 3 hdim (by norm_num),
    zeroModulation_piece P dim true b 4 hdim (by norm_num),
    zeroModulation_piece P dim true b 5 hdim (by norm_num)]
  simp

theorem zeroModulation_fwd_single (P : Prims) (dim b : ℕ) (hdim : dim ≠ 0) :
    (zeroModulation dim false).fwd P (zeros2 b dim) =
      (ModOut.mk (zeros3 b 1 dim) (zeros3 b 1 dim) (zeros3 b 1 dim), none) := by
  unfold Modulation.fwd
  have hd : (zeroModulation dim false).is_double = false := by rw [zeroModulation_eq]
  rw [hd,
    zeroModulation_piece P dim false b 0 hdim (by norm_num),
    zeroModulation_piece P dim false b 1 hdim (by norm_num),
    zeroModulation_piece P dim false b 2 hdim (by norm_num)]
  simp

theorem onePlus3_zeros (b c : ℕ) :
    onePlus3 (zeros3 b 1 c) = List.replicate b [List.replicate c (1 : ℚ)] := by
  unfold onePlus3 zeros3
  simp [List.map_replicate]

theorem mulBr_ones_zeros (b s c : ℕ) :
    mulBr (zeros3 b s c) (List.replicate b [List.replicate c (1 : ℚ)]) =
      zeros3 b s c := by
  unfold mulBr zeros3
  rw [zipWith_rep]
  simp only [List.headD_cons, List.map_replicate, zipWith_rep]
  norm_num

theorem addBr_zeros (b s c : ℕ) :
    addBr (zeros3 b s c) (zeros3 b 1 c) = zeros3 b s c := by
  unfold addBr zeros3
  rw [zipWith_rep]
  simp only [List.replicate_one, List.headD_cons, List.map_replicate, zipWith_rep]
  norm_num

theorem modStream_zeros (P : Prims) (b s c : ℕ) :
    modStream P (ModOut.mk (zeros3 b 1 c) (zeros3 b 1 c) (zeros3 b 1 c))
      (zeros3 b s c) = zeros3 b s c := by
  unfold modStream
  simp only []
  rw [ln3_zeros, onePlus3_zeros, mulBr_ones_zeros, addBr_zeros]

theorem toHeadsD_zeros (b s c H D : ℕ) (hs : s ≠ 0) (hD : D ≠ 0) (hHD : H * D = c) :
    toHeadsD D (zeros3 b s c) =
      List.replicate b (List.replicate H (List.replicate s (List.replicate D (0 : ℚ)))) := by
  unfold toHeadsD zeros3
  simp only [List.map_replicate]
  congr 1
  rw [← hHD, chunkList_replicate D H hD]
  unfold trans12
  rw [headD_replicate s hs]
  simp only [List.length_replicate]
  have hcg : ∀ j ∈ List.range H,
      (List.replicate s (List.replicate H (List.replicate D (0 : ℚ)))).map
        (fun sr => sr.getD j []) = List.replicate s (List.replicate D 0) := by
    intro j hj
    rw [List.map_replicate, getD_replicate_lt _ _ j H (List.mem_range.mp hj)]
  rw [List.map_congr_left hcg, map_const_own, List.length_range]

theorem rms4_zeros (P : Prims) (scale : Row) (b H s D : ℕ) (hsc : scale.length = D) :
    rms4 P scale
      (List.replicate b (List.replicate H (List.replicate s (List.replicate D (0 : ℚ))))) =
      List.replicate b (List.replicate H (List.replicate s (List.replicate D (0 : ℚ)))) := by
  unfold rms4
  simp [List.map_replicate, rmsRow_zero, hsc]

theorem catSeq4_zeros (b H s1 s2 D : ℕ) :
    catSeq4
      (List.replicate b (List.replicate H (List.replicate s1 (List.replicate D (0 : ℚ)))))
      (List.replicate b (List.replicate H (List.replicate s2 (List.replicate D (0 : ℚ))))) =
      List.replicate b (List.replicate H (List.replicate (s1 + s2) (List.replicate D (0 : ℚ)))) := by
  unfold catSeq4
  rw [zipWith_rep, zipWith_rep, ← List.replicate_add]

theorem rowScoresAux_length (P : Prims) (iq : Row) :
    ∀ (j : ℕ) (kh : Mat), (rowScoresAux P iq j kh).length = kh.length := by
  intro j kh
  induction kh generalizing j with
  | nil => rfl
  | cons a as ih => simp [rowScoresAux, ih]

theorem softmaxW_length (P : Prims) (s : Row) : (softmaxW P s).length = s.length := by
  simp [softmaxW]

theorem zipWith_replicate_right (f : α → β → γ) (c : β) :
    ∀ (l : List α) (n : ℕ),
      List.zipWith f l (List.replicate n c) = (l.take n).map (fun a => f a c) := by
  intro l
  induction l with
  | nil => intro n; simp
  | cons a as ih =>
    intro n
    cases n with
    | zero => simp
    | succ k => simp [List.replicate_succ, ih k]

theorem headOutRow_zeroV (P : Prims) (i : ℕ) (qi : Row) (kh : Mat) (s2 D : ℕ)
    (hk : kh.length = s2) (hs2 : s2 ≠ 0) :
    headOutRow P i qi kh (List.replicate s2 (List.replicate D (0 : ℚ))) =
      List.replicate D 0 := by
  simp only [headOutRow]
  rw [zipWith_replicate_right]
  apply sumRows_of_all_zero
  · intro hc
    have := congrArg List.length hc
    simp only [List.length_map, List.length_take, softmaxW_length,
      rowScoresAux_length, hk, List.length_nil] at this
    omega
  · intro r hr
    simp only [List.mem_map] at hr
    obtain ⟨wj, _, hw⟩ := hr
    rw [← hw, List.map_replicate]
    norm_num

theorem headOutAux_zeroV (P : Prims) (kh : Mat) (s2 D : ℕ)
    (hk : kh.length = s2) (hs2 : s2 ≠ 0) (q0 : Row) :
    ∀ (n i : ℕ),
      headOutAux P kh (List.replicate s2 (List.replicate D (0 : ℚ))) i
        (List.replicate n q0) = List.replicate n (List.replicate D 0) := by
  intro n
  induction n with
  | zero => intro i; rfl
  | succ m ih =>
    intro i
    show headOutRow P i q0 kh _ :: headOutAux P kh _ (i + 1) (List.replicate m q0) = _
    rw [headOutRow_zeroV P i q0 kh s2 D hk hs2, ih (i + 1)]
    rfl

theorem mergeHeads_rep (H s1 D : ℕ) (hH : H ≠ 0) :
    mergeHeads (List.replicate H (List.replicate s1 (List.replicate D (0 : ℚ)))) =
      List.replicate s1 (List.replicate (H * D) 0) := by
  unfold mergeHeads
  rw [headD_replicate H hH, List.length_replicate]
  have hcg : ∀ i ∈ List.range s1,
      ((List.replicate H (List.replicate s1 (List.replicate D (0 : ℚ)))).map
        (fun hh => hh.getD i [])).flatten = List.replicate (H * D) 0 := by
    intro i hi
    rw [List.map_replicate, getD_replicate_lt _ _ i s1 (List.mem_range.mp hi),
      flatten_replicate]
  rw [List.map_congr_left hcg, map_const_own, List.length_range]

theorem attention_zeros (P : Prims) (b H s1 s2 D : ℕ) (hH : H ≠ 0) (hs2 : s2 ≠ 0) :
    attention P
      (List.replicate b (List.replicate H (List.replicate s1 (List.replicate D (0 : ℚ)))))
      (List.replicate b (List.replicate H (List.replicate s2 (List.replicate D (0 : ℚ)))))
      (List.replicate b (List.replicate H (List.replicate s2 (List.replicate D (0 : ℚ))))) =
      List.replicate b (List.replicate s1 (List.replicate (H * D) 0)) := by
  unfold attention
  rw [zip_replicate_own, zip_replicate_own, List.map_replicate]
  congr 1
  rw [zip_replicate_own, zip_replicate_own, List.map_replicate]
  unfold attnHead
  rw [headOutAux_zeroV P _ s2 D (by simp) hs2 _ s1 0]
  exact mergeHeads_rep H s1 D hH

theorem addcmul3_zeros (b s c : ℕ) :
    addcmul3 (zeros3 b s c) (zeros3 b s c) (zeros3 b 1 c) = zeros3 b s c := by
  unfold addcmul3 zeros3
  rw [zip_replicate_own, zipWith_rep]
  simp only [List.replicate_one, List.headD_cons, zipWith_rep]
  norm_num

theorem splitMlp3_zeros (P : Prims) (C M b s : ℕ) (hb : b ≠ 0) (hs8 : 8 ≤ s) :
    splitMlp3 P { lin1 := zLin C M, lin2 := zLin M C } (zeros3 b s C) 8 =
      Except.ok (zeros3 b s C) := by
  have hs : s ≠ 0 := by omega
  unfold splitMlp3
  simp only []
  have h2 : ((zeros3 b s C).headD []).length = s := by
    unfold zeros3
    rw [headD_replicate _ hb]
    simp
  have hfl : (zeros3 b s C).flatten = List.replicate (b * s) (List.replicate C (0 : ℚ)) := by
    unfold zeros3
    exact flatten_replicate b s _
  rw [hfl, splitMlp_ok _ _ _ _ _ 8 (by omega)
    (by simp only [h2, List.getD_cons_succ, List.getD_cons_zero]; omega)]
  unfold unchunkedMlp
  rw [List.map_replicate, applyRow_zLin, h2]
  show Except.ok (chunkList s (List.replicate (b * s) (List.replicate C (0 : ℚ)))) =
    Except.ok (zeros3 b s C)
  rw [chunkList_replicate s b hs]
  rfl

theorem mlpApply3_zeros (P : Prims) (C M b s : ℕ) :
    mlpApply3 P { lin1 := zLin C M, lin2 := zLin M C } (zeros3 b s C) = zeros3 b s C := by
  unfold mlpApply3 zeros3
  simp [List.map_replicate, applyRow_zLin]

theorem rowWidth_zeros (b s c : ℕ) (hb : b ≠ 0) (hs : s ≠ 0) :
    rowWidth (zeros3 b s c) = c := by
  unfold rowWidth zeros3
  rw [headD_replicate _ hb, headD_replicate _ hs]
  simp

theorem headDlen_zeros (b s c : ℕ) (hb : b ≠ 0) :
    ((zeros3 b s c).headD []).length = s := by
  unfold zeros3
  rw [headD_replicate _ hb]
  simp

theorem zeroDSB_fwd (P : Prims) (C H M B Si St : ℕ) (hB : B ≠ 0) (hSt : St ≠ 0)
    (hSi8 : 8 ≤ Si) (hH : H ≠ 0) (hDpos : C / H ≠ 0) (hHD : H * (C / H) = C) :
    DSB.fwd P (zeroDSBg C H M) (zeros3 B Si C) (zeros3 B St C) (zeros2 B C) =
      Except.ok (zeros3 B Si C, zeros3 B St C) := by
  have hSi : Si ≠ 0 := by omega
  have hC : C ≠ 0 := by
    rw [← hHD]
    exact Nat.mul_ne_zero hH hDpos
  have hscl : (RMSNormM.init (C / H)).scale.length = C / H := by
    simp [RMSNormM.init]
  simp only [DSB.fwd, zeroDSBg, zeroSelfAttn, qkFwdQ, qkFwdK]
  rw [zeroModulation_fwd_double P C B hC]
  simp only []
  rw [modStream_zeros P B Si C, modStream_zeros P B St C,
    rowWidth_zeros B Si C hB hSi, rowWidth_zeros B St C hB hSt,
    linear3_zLin_zeros C C B Si C, linear3_zLin_zeros C C B St C,
    toHeadsD_zeros B Si C H (C / H) hSi hDpos hHD,
    toHeadsD_zeros B St C H (C / H) hSt hDpos hHD,
    rms4_zeros P _ B H Si (C / H) hscl, rms4_zeros P _ B H St (C / H) hscl,
    catSeq4_zeros B H St Si (C / H),
    attention_zeros P B H (St + Si) (St + Si) (C / H) hH (by omega),
    hHD,
    headDlen_zeros B St C hB,
    List.map_replicate, List.map_replicate, List.take_replicate, List.drop_replicate,
    show min St (St + Si) = St from by omega,
    show St + Si - St = Si from by omega,
    show List.replicate B (List.replicate Si (List.replicate C (0 : ℚ))) = zeros3 B Si C
      from rfl,
    show List.replicate B (List.replicate St (List.replicate C (0 : ℚ))) = zeros3 B St C
      from rfl,
    linear3_zLin_zeros C C B St C, linear3_zLin_zeros C C B Si C,
    addcmul3_zeros B Si C,
    modStream_zeros P B Si C,
    splitMlp3_zeros P C M B Si hB hSi8]
  simp only []
  rw [addcmul3_zeros B Si C, addcmul3_zeros B St C,
    modStream_zeros P B St C, mlpApply3_zeros P C M B St,
    addcmul3_zeros B St C]

theorem zip_self_map (F : α × α → β) (l : List α) :
    (l.zip l).map F = l.map (fun a => F (a, a)) := by
  induction l with
  | nil => rfl
  | cons a as ih => simp [ih]

theorem flatten_map_replicate_len (x : α) (L : List (List β)) :
    (L.map (fun c => List.replicate c.length x)).flatten =
      List.replicate L.flatten.length x := by
  induction L with
  | nil => rfl
  | cons c cs ih =>
    simp only [List.map_cons, List.flatten_cons, ih, List.length_append]
    rw [List.replicate_add]

theorem ssb_chunk_combine (P : Prims) (C M cs K : ℕ) (hcs : cs ≠ 0) :
    ((((chunkList cs (List.replicate K (List.replicate C (0 : ℚ))))).zip
      (chunkList cs (List.replicate K (List.replicate C (0 : ℚ))))).map
        (fun p => (p.2.zip (p.1.map (fun r => (applyRow (zLin C M) r).map P.glf))).map
          (fun rr => applyRow (zLin (C + M) C) (rr.1 ++ rr.2)))).flatten =
      List.replicate K (List.replicate C 0) := by
  rw [zip_self_map]
  have hmem : ∀ c ∈ chunkList cs (List.replicate K (List.replicate C (0 : ℚ))),
      ((c.zip (c.map (fun r => (applyRow (zLin C M) r).map P.glf))).map
        (fun rr => applyRow (zLin (C + M) C) (rr.1 ++ rr.2))) =
      List.replicate c.length (List.replicate C 0) := by
    intro c _
    have h1 : ∀ rr : Row × Row, applyRow (zLin (C + M) C) (rr.1 ++ rr.2) =
        List.replicate C 0 := fun rr => applyRow_zLin _ _ _
    calc ((c.zip (c.map (fun r => (applyRow (zLin C M) r).map P.glf))).map
        (fun rr => applyRow (zLin (C + M) C) (rr.1 ++ rr.2)))
        = (c.zip (c.map (fun r => (applyRow (zLin C M) r).map P.glf))).map
            (fun _ => List.replicate C (0 : ℚ)) := by
          apply List.map_congr_left
          intro rr _
          exact h1 rr
      _ = List.replicate c.length (List.replicate C 0) := by
          rw [map_const_own, List.length_zip, List.length_map, min_self]
  rw [List.map_congr_left hmem]
  have := flatten_map_replicate_len (List.replicate C (0 : ℚ))
    (chunkList cs (List.replicate K (List.replicate C (0 : ℚ))))
  rw [this, flatten_chunkList cs hcs]
  simp

theorem zeroSSB_fwd (P : Prims) (C H M B S : ℕ) (hB : B ≠ 0) (hS6 : 6 ≤ S)
    (hH : H ≠ 0) (hDpos : C / H ≠ 0) (hHD : H * (C / H) = C) :
    SSB.fwd P (zeroSSBg C H M) (zeros3 B S C) (zeros2 B C) =
      Except.ok (zeros3 B S C) := by
  have hS : S ≠ 0 := by omega
  have hC : C ≠ 0 := by
    rw [← hHD]
    exact Nat.mul_ne_zero hH hDpos
  have hscl : (RMSNormM.init (C / H)).scale.length = C / H := by
    simp [RMSNormM.init]
  have hcs : S / 6 ≠ 0 := Nat.pos_iff_ne_zero.mp (Nat.div_pos hS6 (by omega))
  simp only [SSB.fwd, zeroSSBg, qkFwdQ, qkFwdK]
  rw [zeroModulation_fwd_single P C B hC]
  simp only []
  rw [modStream_zeros P B S C,
    rowWidth_zeros B S C hB hS,
    linear3_zLin_zeros C C B S C,
    toHeadsD_zeros B S C H (C / H) hS hDpos hHD,
    rms4_zeros P _ B H S (C / H) hscl,
    attention_zeros P B H S S (C / H) hH hS,
    hHD,
    headDlen_zeros B S C hB,
    show (zeros3 B S C).flatten = List.replicate (B * S) (List.replicate C (0 : ℚ))
      from by
        unfold zeros3
        exact flatten_replicate B S _,
    show (List.replicate B (List.replicate S (List.replicate C (0 : ℚ)))).flatten =
        List.replicate (B * S) (List.replicate C (0 : ℚ))
      from flatten_replicate B S _,
    if_neg (fun hcon => hcs (And.left hcon)),
    ssb_chunk_combine P C M (S / 6) (B * S) hcs,
    chunkList_replicate S B hS]
  rw [show List.replicate B (List.replicate S (List.replicate C (0 : ℚ))) = zeros3 B S C
    from rfl, addcmul3_zeros B S C]

/-- C9: neither block forward mutates the conditioning vector vec: at the
buffer level, whenever a call returns, the post-call contents of the vec
buffer equal its pre-call contents (no statement of either forward body
targets vec with an in-place operation; vec is only read by the Modulation
calls). -/
theorem c9_blocks_preserve_vec (P : Prims) (m : DSB) (m2 : SSB) (s : DSBState)
    (s2 : SSBState) :
    (∀ s3, DSB.call P m s = Except.ok s3 → s3.vec = s.vec) ∧
    (∀ s3, SSB.call P m2 s2 = Except.ok s3 → s3.vec = s2.vec) := by
  constructor
  · intro s3 hc
    unfold DSB.call at hc
    cases hf : DSB.fwd P m s.img s.txt s.vec with
    | error e =>
      rw [hf] at hc
      exact absurd hc (by simp)
    | ok p =>
      rw [hf] at hc
      simp only [Except.ok.injEq] at hc
      rw [← hc]
  · intro s3 hc
    unfold SSB.call at hc
    cases hf : SSB.fwd P m2 s2.x s2.vec with
    | error e =>
      rw [hf] at hc
      exact absurd hc (by simp)
    | ok p =>
      rw [hf] at hc
      simp only [Except.ok.injEq] at hc
      rw [← hc]

/-- Witness for C9: concrete successful calls of both blocks on zero
inputs, with the conditioning vector intact afterwards. -/
theorem c9_witness :
    DSB.call idPrims tinyDSB ⟨zeros3 1 8 1, zeros3 1 1 1, zeros2 1 1⟩ =
      Except.ok ⟨zeros3 1 8 1, zeros3 1 1 1, zeros2 1 1⟩ ∧
    (DSBState.mk (zeros3 1 8 1) (zeros3 1 1 1) (zeros2 1 1)).vec = zeros2 1 1 ∧
    SSB.call idPrims tinySSB ⟨zeros3 1 6 1, zeros2 1 1⟩ =
      Except.ok ⟨zeros3 1 6 1, zeros2 1 1⟩ ∧
    (SSBState.mk (zeros3 1 6 1) (zeros2 1 1)).vec = zeros2 1 1 := by
  have h1 : DSB.call idPrims tinyDSB ⟨zeros3 1 8 1, zeros3 1 1 1, zeros2 1 1⟩ =
      Except.ok ⟨zeros3 1 8 1, zeros3 1 1 1, zeros2 1 1⟩ := by
    unfold DSB.call tinyDSB
    simp only []
    rw [zeroDSB_fwd idPrims 1 1 1 1 8 1 (by omega) (by omega) (by omega)
      (by omega) (by omega) (by omega)]
  have h2 : SSB.call idPrims tinySSB ⟨zeros3 1 6 1, zeros2 1 1⟩ =
      Except.ok ⟨zeros3 1 6 1, zeros2 1 1⟩ := by
    unfold SSB.call tinySSB
    simp only []
    rw [zeroSSB_fwd idPrims 1 1 1 1 6 (by omega) (by omega) (by omega)
      (by omega) (by omega)]
  exact ⟨h1,
    (c9_blocks_preserve_vec idPrims tinyDSB tinySSB
      ⟨zeros3 1 8 1, zeros3 1 1 1, zeros2 1 1⟩ ⟨zeros3 1 6 1, zeros2 1 1⟩).1 _ h1,
    h2,
    (c9_blocks_preserve_vec idPrims tinyDSB tinySSB
      ⟨zeros3 1 8 1, zeros3 1 1 1, zeros2 1 1⟩ ⟨zeros3 1 6 1, zeros2 1 1⟩).2 _ h2⟩

/-- C7: for the DoubleStreamBlock(hidden_size=64, num_heads=4,
mlp_ratio=4.0) whose additive paths are zero-initialized and whose
modulation is centered at identity (zero shift/scale/gate), calling
forward with img = zeros[1,8,64], txt = zeros[1,4,64], vec = zeros[1,64]
and an identity-rotation positional encoding returns (img, txt) both
all-zero — the residual/gating wiring adds only gated updates, and every
gate is zero. -/
theorem c7_zero_scenario (P : Prims) (hrot : ∀ (i : ℕ) (r : Row), P.rot i r = r) :
    DSB.fwd P zeroDSB64 (zeros3 1 8 64) (zeros3 1 4 64) (zeros2 1 64) =
      Except.ok (zeros3 1 8 64, zeros3 1 4 64) := by
  unfold zeroDSB64
  exact zeroDSB_fwd P 64 4 256 1 8 4 (by omega) (by omega) (by omega) (by omega)
    (by norm_num) (by norm_num)

/-- Witness for C7: the identity-rotation hypothesis holds for the
identity interpretation of the primitives. -/
theorem c7_witness :
    (∀ (i : ℕ) (r : Row), idPrims.rot i r = r) ∧
    DSB.fwd idPrims zeroDSB64 (zeros3 1 8 64) (zeros3 1 4 64) (zeros2 1 64) =
      Except.ok (zeros3 1 8 64, zeros3 1 4 64) :=
  ⟨fun _ _ => rfl, c7_zero_scenario idPrims (fun _ _ => rfl)⟩

theorem headD_mem (l : List α) (d : α) (hl : l ≠ []) : l.headD d ∈ l := by
  cases l with
  | nil => exact absurd rfl hl
  | cons a as => simp

theorem getD_mem (d : α) : ∀ (l : List α) (i : ℕ), i < l.length → l.getD i d ∈ l := by
  intro l
  induction l with
  | nil => intro i hi; simp at hi
  | cons a as ih =>
    intro i hi
    cases i with
    | zero => simp
    | succ j =>
      simp only [List.getD_cons_succ]
      exact List.mem_cons_of_mem a (ih j (by simpa using hi))

theorem sh3_headD_len (x : T3) (b s c : ℕ) (hx : sh3 x b s c) (hb : b ≠ 0) :
    ((x.headD []).length) = s := by
  have hne : x ≠ [] := by
    intro hc
    rw [hc] at hx
    exact hb (hx.1.symm)
  exact (hx.2 _ (headD_mem x [] hne)).1

theorem sh3_rowWidth (x : T3) (b s c : ℕ) (hx : sh3 x b s c) (hb : b ≠ 0)
    (hs : s ≠ 0) : rowWidth x = c := by
  have hne : x ≠ [] := by
    intro hc
    rw [hc] at hx
    exact hb (hx.1.symm)
  have h1 := hx.2 _ (headD_mem x [] hne)
  have hne2 : x.headD [] ≠ [] := by
    intro hc
    rw [hc] at h1
    exact hs (h1.1.symm)
  exact h1.2 _ (headD_mem _ [] hne2)

theorem sh2_single (m : Mat) (c : ℕ) (hm : sh2 m 1 c) : (m.headD []).length = c := by
  have hne : m ≠ [] := by
    intro hc
    rw [hc] at hm
    simp [sh2] at hm
  exact hm.2 _ (headD_mem m [] hne)

theorem ln3_shape (P : Prims) (x : T3) (b s c : ℕ) (hx : sh3 x b s c) :
    sh3 (ln3 P x) b s c := by
  obtain ⟨h1, h2⟩ := hx
  refine ⟨by simpa [ln3], ?_⟩
  intro m2 hm
  simp only [ln3, List.mem_map] at hm
  obtain ⟨xb, hxb, hm⟩ := hm
  obtain ⟨hl, hr⟩ := h2 xb hxb
  subst hm
  refine ⟨by simpa, ?_⟩
  intro r hr2
  simp only [List.mem_map] at hr2
  obtain ⟨r0, hr0, hr2⟩ := hr2
  subst hr2
  simp [lnRow, hr r0 hr0]

theorem linear3_shape (m : Linear) (x : T3) (b s c inF o : ℕ) (hm : m.wf inF o)
    (hx : sh3 x b s c) : sh3 (linear3 m x) b s o := by
  obtain ⟨h1, h2⟩ := hx
  refine ⟨by simpa [linear3], ?_⟩
  intro m2 hm2
  simp only [linear3, List.mem_map] at hm2
  obtain ⟨xb, hxb, hm2⟩ := hm2
  subst hm2
  refine ⟨by simpa using (h2 xb hxb).1, ?_⟩
  intro r hr
  simp only [List.mem_map] at hr
  obtain ⟨r0, _, hr⟩ := hr
  subst hr
  exact applyRow_length m inF o hm r0

theorem zipWith_mem (f : α → β → γ) :
    ∀ (l1 : List α) (l2 : List β) (c : γ), c ∈ List.zipWith f l1 l2 →
      ∃ a b2, a ∈ l1 ∧ b2 ∈ l2 ∧ c = f a b2 := by
  intro l1
  induction l1 with
  | nil => intro l2 c hc; simp at hc
  | cons a as ih =>
    intro l2 c hc
    cases l2 with
    | nil => simp at hc
    | cons b2 bs =>
      simp only [List.zipWith_cons_cons, List.mem_cons] at hc
      rcases hc with hc | hc
      · exact ⟨a, b2, by simp, by simp, hc⟩
      · obtain ⟨a2, b3, ha, hb, hc⟩ := ih bs c hc
        exact ⟨a2, b3, List.mem_cons_of_mem a ha, List.mem_cons_of_mem b2 hb, hc⟩

theorem mulBr_shape (x g : T3) (b s c : ℕ) (hx : sh3 x b s c) (hg : sh3 g b 1 c) :
    sh3 (mulBr x g) b s c := by
  obtain ⟨h1, h2⟩ := hx
  obtain ⟨g1, g2⟩ := hg
  refine ⟨by simp [mulBr, List.length_zipWith, h1, g1], ?_⟩
  intro m2 hm2
  obtain ⟨xb, gb, hxb, hgb, hm2⟩ := zipWith_mem _ x g m2 hm2
  subst hm2
  refine ⟨by simpa using (h2 xb hxb).1, ?_⟩
  intro r hr
  simp only [List.mem_map] at hr
  obtain ⟨r0, hr0, hr⟩ := hr
  subst hr
  simp only [List.length_zipWith]
  rw [(h2 xb hxb).2 r0 hr0, sh2_single gb c (g2 gb hgb)]
  omega

theorem addBr_shape (x g : T3) (b s c : ℕ) (hx : sh3 x b s c) (hg : sh3 g b 1 c) :
    sh3 (addBr x g) b s c := by
  obtain ⟨h1, h2⟩ := hx
  obtain ⟨g1, g2⟩ := hg
  refine ⟨by simp [addBr, List.length_zipWith, h1, g1], ?_⟩
  intro m2 hm2
  obtain ⟨xb, gb, hxb, hgb, hm2⟩ := zipWith_mem _ x g m2 hm2
  subst hm2
  refine ⟨by simpa using (h2 xb hxb).1, ?_⟩
  intro r hr
  simp only [List.mem_map] at hr
  obtain ⟨r0, hr0, hr⟩ := hr
  subst hr
  simp only [List.length_zipWith]
  rw [(h2 xb hxb).2 r0 hr0, sh2_single gb c (g2 gb hgb)]
  omega

theorem onePlus3_shape (g : T3) (b s c : ℕ) (hg : sh3 g b s c) :
    sh3 (onePlus3 g) b s c := by
  obtain ⟨h1, h2⟩ := hg
  refine ⟨by simpa [onePlus3], ?_⟩
  intro m2 hm2
  simp only [onePlus3, List.mem_map] at hm2
  obtain ⟨gb, hgb, hm2⟩ := hm2
  subst hm2
  refine ⟨by simpa using (h2 gb hgb).1, ?_⟩
  intro r hr
  simp only [List.mem_map] at hr
  obtain ⟨r0, hr0, hr⟩ := hr
  subst hr
  simpa using (h2 gb hgb).2 r0 hr0

theorem modStream_shape (P : Prims) (mo : ModOut) (x : T3) (b s c : ℕ)
    (hx : sh3 x b s c) (hsc : sh3 mo.scale b 1 c) (hsh : sh3 mo.shift b 1 c) :
    sh3 (modStream P mo x) b s c :=
  addBr_shape _ _ b s c
    (mulBr_shape _ _ b s c (ln3_shape P x b s c hx) (onePlus3_shape _ b 1 c hsc)) hsh

theorem chunk_mem_fuel (n : ℕ) (hn : n ≠ 0) :
    ∀ (len : ℕ) (l : List α), l.length ≤ len →
      ∀ c ∈ chunkList n l, ∀ a ∈ c, a ∈ l := by
  intro len
  induction len with
  | zero =>
    intro l hl c hc a ha
    have : l = [] := List.eq_nil_of_length_eq_zero (by omega)
    subst this
    simp [chunkList_nil] at hc
  | succ k ih =>
    intro l hl c hc a ha
    cases l with
    | nil => simp [chunkList_nil] at hc
    | cons x xs =>
      rw [chunkList_eq_cons n _ hn (by simp)] at hc
      rcases List.mem_cons.mp hc with h1 | h1
      · subst h1
        exact List.take_subset n _ ha
      · have hd : ((x :: xs).drop n).length ≤ k := by
          simp only [List.length_drop, List.length_cons]
          simp only [List.length_cons] at hl
          omega
        exact List.drop_subset n (x :: xs) (ih _ hd c h1 a ha)

theorem chunk_mem_sub (n : ℕ) (hn : n ≠ 0) (l : List α) (c : List α)
    (hc : c ∈ chunkList n l) (a : α) (ha : a ∈ c) : a ∈ l :=
  chunk_mem_fuel n hn l.length l le_rfl c hc a ha

theorem sh2_chunkRow (row : Row) (H D : ℕ) (hD : D ≠ 0) (hlen : row.length = H * D) :
    sh2 (chunkList D row) H D := by
  obtain ⟨hl, hm⟩ := chunkList_length_exact D hD H row hlen
  exact ⟨hl, hm⟩

theorem trans12_shape (m : List Mat) (s H D : ℕ) (hs : s ≠ 0) (hlen : m.length = s)
    (hmem : ∀ sr ∈ m, sh2 sr H D) :
    (trans12 m).length = H ∧ ∀ hh ∈ trans12 m, sh2 hh s D := by
  have hne : m ≠ [] := by
    intro hc
    rw [hc] at hlen
    exact hs hlen.symm
  have hH : (m.headD []).length = H := (hmem _ (headD_mem m [] hne)).1
  constructor
  · unfold trans12
    simp only [List.length_map, List.length_range]
    exact hH
  · intro hh hhm
    simp only [trans12, hH, List.mem_map] at hhm
    obtain ⟨j, hj, hhm⟩ := hhm
    subst hhm
    refine ⟨by simpa using hlen, ?_⟩
    intro r hr
    simp only [List.mem_map] at hr
    obtain ⟨sr, hsr, hr⟩ := hr
    subst hr
    have hsh := hmem sr hsr
    exact hsh.2 _ (getD_mem [] sr j (by rw [hsh.1]; exact List.mem_range.mp hj))

theorem toHeadsD_shape (x : T3) (b s c H D : ℕ) (hx : sh3 x b s c) (hs : s ≠ 0)
    (hD : D ≠ 0) (hHD : H * D = c) : sh4 (toHeadsD D x) b H s D := by
  obtain ⟨h1, h2⟩ := hx
  refine ⟨by simpa [toHeadsD], ?_⟩
  intro t ht
  simp only [toHeadsD, List.mem_map] at ht
  obtain ⟨xb, hxb, ht⟩ := ht
  subst ht
  have hsh := h2 xb hxb
  have hinner : ∀ sr ∈ xb.map (chunkList D), sh2 sr H D := by
    intro sr hsr
    simp only [List.mem_map] at hsr
    obtain ⟨r0, hr0, hsr⟩ := hsr
    subst hsr
    exact sh2_chunkRow r0 H D hD (by rw [hsh.2 r0 hr0, hHD])
  have := trans12_shape (xb.map (chunkList D)) s H D hs (by simpa using hsh.1) hinner
  exact ⟨this.1, this.2⟩

theorem rms4_shape (P : Prims) (scale : Row) (x : T4) (b h s d : ℕ)
    (hx : sh4 x b h s d) (hsc : scale.length = d) :
    sh4 (rms4 P scale x) b h s d := by
  obtain ⟨h1, h2⟩ := hx
  refine ⟨by simpa [rms4], ?_⟩
  intro t ht
  simp only [rms4, List.mem_map] at ht
  obtain ⟨xb, hxb, ht⟩ := ht
  subst ht
  obtain ⟨hb1, hb2⟩ := h2 xb hxb
  refine ⟨by simpa, ?_⟩
  intro hh hhm
  simp only [List.mem_map] at hhm
  obtain ⟨xh, hxh, hhm⟩ := hhm
  subst hhm
  obtain ⟨hc1, hc2⟩ := hb2 xh hxh
  refine ⟨by simpa, ?_⟩
  intro r hr
  simp only [List.mem_map] at hr
  obtain ⟨r0, hr0, hr⟩ := hr
  subst hr
  simp only [rmsRow, List.length_zipWith]
  rw [hc2 r0 hr0, hsc]
  omega

theorem catSeq4_shape (a c : T4) (b h s1 s2 d : ℕ) (ha : sh4 a b h s1 d)
    (hc : sh4 c b h s2 d) : sh4 (catSeq4 a c) b h (s1 + s2) d := by
  obtain ⟨a1, a2⟩ := ha
  obtain ⟨c1, c2⟩ := hc
  refine ⟨by simp [catSeq4, List.length_zipWith, a1, c1], ?_⟩
  intro t ht
  obtain ⟨ab, cb, hab, hcb, ht⟩ := zipWith_mem _ a c t ht
  subst ht
  obtain ⟨ab1, ab2⟩ := a2 ab hab
  obtain ⟨cb1, cb2⟩ := c2 cb hcb
  refine ⟨by simp [List.length_zipWith, ab1, cb1], ?_⟩
  intro hh hhm
  obtain ⟨ah, ch, hah, hch, hhm⟩ := zipWith_mem _ ab cb hh hhm
  subst hhm
  obtain ⟨ah1, ah2⟩ := ab2 ah hah
  obtain ⟨ch1, ch2⟩ := cb2 ch hch
  refine ⟨by simp [ah1, ch1], ?_⟩
  intro r hr
  rcases List.mem_append.mp hr with h1 | h1
  · exact ah2 r h1
  · exact ch2 r h1

theorem sumRows_length (d : ℕ) :
    ∀ (l : Mat), l ≠ [] → (∀ r ∈ l, r.length = d) → (sumRows l).length = d := by
  intro l
  induction l with
  | nil => intro h; exact absurd rfl h
  | cons r rs ih =>
    intro _ hall
    cases rs with
    | nil => simpa [sumRows] using hall r (by simp)
    | cons r2 rs2 =>
      show (List.zipWith (· + ·) r (sumRows (r2 :: rs2))).length = d
      rw [List.length_zipWith, hall r (by simp),
        ih (by simp) (fun r3 h3 => hall r3 (List.mem_cons_of_mem r h3))]
      omega

theorem headOutRow_length (P : Prims) (i : ℕ) (qi : Row) (kh vh : Mat) (s2 d : ℕ)
    (hk : kh.length = s2) (hv : vh.length = s2) (hvr : ∀ r ∈ vh, r.length = d)
    (hs2 : s2 ≠ 0) : (headOutRow P i qi kh vh).length = d := by
  simp only [headOutRow]
  apply sumRows_length
  · intro hc
    have := congrArg List.length hc
    simp only [List.length_zipWith, softmaxW_length, rowScoresAux_length, hk, hv,
      List.length_nil] at this
    omega
  · intro r hr
    obtain ⟨wj, vj, _, hvj, hr⟩ := zipWith_mem _ _ vh r hr
    subst hr
    simpa using hvr vj hvj

theorem headOutAux_shape (P : Prims) (kh vh : Mat) (s2 d : ℕ) (hk : kh.length = s2)
    (hv : vh.length = s2) (hvr : ∀ r ∈ vh, r.length = d) (hs2 : s2 ≠ 0) :
    ∀ (qh : Mat) (i : ℕ), (headOutAux P kh vh i qh).length = qh.length ∧
      ∀ r ∈ headOutAux P kh vh i qh, r.length = d := by
  intro qh
  induction qh with
  | nil => intro i; exact ⟨rfl, by simp [headOutAux]⟩
  | cons qi rest ih =>
    intro i
    constructor
    · show (headOutRow P i qi kh vh :: headOutAux P kh vh (i + 1) rest).length = _
      simp [(ih (i + 1)).1]
    · intro r hr
      show r.length = d
      rcases List.mem_cons.mp hr with h1 | h1
      · subst h1
        exact headOutRow_length P i qi kh vh s2 d hk hv hvr hs2
      · exact (ih (i + 1)).2 r h1

theorem flatten_len_uniform {α : Type} (d : ℕ) :
    ∀ (L : List (List α)), (∀ r ∈ L, r.length = d) → L.flatten.length = L.length * d := by
  intro L
  induction L with
  | nil => intro; simp
  | cons r rs ih =>
    intro hall
    simp only [List.flatten_cons, List.length_append, List.length_cons,
      hall r (by simp), ih (fun r2 h2 => hall r2 (List.mem_cons_of_mem r h2))]
    ring

theorem mergeHeads_shape (heads : T3) (h s1 d : ℕ) (hh : heads.length = h)
    (hne : h ≠ 0) (hmem : ∀ hd ∈ heads, sh2 hd s1 d) :
    sh2 (mergeHeads heads) s1 (h * d) := by
  have hne2 : heads ≠ [] := by
    intro hc
    rw [hc] at hh
    exact hne hh.symm
  have hhd : (heads.headD []).length = s1 := (hmem _ (headD_mem heads [] hne2)).1
  constructor
  · unfold mergeHeads
    simp only [List.length_map, List.length_range]
    exact hhd
  · intro r hr
    unfold mergeHeads at hr
    simp only [List.mem_map, List.mem_range] at hr
    obtain ⟨i, hi, hr⟩ := hr
    subst hr
    rw [flatten_len_uniform d]
    · simp [hh]
    · intro r2 hr2
      simp only [List.mem_map] at hr2
      obtain ⟨hd, hhdm, hr2⟩ := hr2
      subst hr2
      have hsh := hmem hd hhdm
      exact hsh.2 _ (getD_mem [] hd i (by rw [hsh.1]; rw [hhd] at hi; exact hi))

theorem attention_shape (P : Prims) (q k v : T4) (b h s1 s2 d : ℕ)
    (hq : sh4 q b h s1 d) (hk : sh4 k b h s2 d) (hv : sh4 v b h s2 d)
    (hh : h ≠ 0) (hs2 : s2 ≠ 0) : sh3 (attention P q k v) b s1 (h * d) := by
  obtain ⟨q1, q2⟩ := hq
  obtain ⟨k1, k2⟩ := hk
  obtain ⟨v1, v2⟩ := hv
  refine ⟨by simp [attention, List.length_zip, q1, k1, v1], ?_⟩
  intro m2 hm2
  simp only [attention, List.mem_map] at hm2
  obtain ⟨p, hp, hm2⟩ := hm2
  subst hm2
  obtain ⟨hqb, hkvb⟩ := List.of_mem_zip hp
  obtain ⟨hkb, hvb⟩ := List.of_mem_zip hkvb
  obtain ⟨qb1, qb2⟩ := q2 _ hqb
  obtain ⟨kb1, kb2⟩ := k2 _ hkb
  obtain ⟨vb1, vb2⟩ := v2 _ hvb
  apply mergeHeads_shape _ h s1 d
  · simp [List.length_zip, qb1, kb1, vb1]
  · exact hh
  · intro hd hhd
    simp only [List.mem_map] at hhd
    obtain ⟨hp2, hp2m, hhd⟩ := hhd
    subst hhd
    obtain ⟨hqh, hkvh⟩ := List.of_mem_zip hp2m
    obtain ⟨hkh, hvh⟩ := List.of_mem_zip hkvh
    obtain ⟨qh1, qh2⟩ := qb2 _ hqh
    obtain ⟨kh1, kh2⟩ := kb2 _ hkh
    obtain ⟨vh1, vh2⟩ := vb2 _ hvh
    unfold attnHead
    have := headOutAux_shape P hp2.2.1 hp2.2.2 s2 d kh1 vh1 vh2 hs2 hp2.1 0
    exact ⟨by rw [this.1, qh1], this.2⟩

theorem slice_shape (x : T3) (b s1 s2 c : ℕ) (hx : sh3 x b (s1 + s2) c) :
    sh3 (x.map (List.take s1)) b s1 c ∧ sh3 (x.map (List.drop s1)) b s2 c := by
  obtain ⟨h1, h2⟩ := hx
  refine ⟨⟨by simpa, ?_⟩, ⟨by simpa, ?_⟩⟩
  · intro m2 hm2
    simp only [List.mem_map] at hm2
    obtain ⟨xb, hxb, hm2⟩ := hm2
    subst hm2
    obtain ⟨hl, hr⟩ := h2 xb hxb
    refine ⟨by simp [hl], ?_⟩
    intro r hrm
    exact hr r (List.take_subset s1 xb hrm)
  · intro m2 hm2
    simp only [List.mem_map] at hm2
    obtain ⟨xb, hxb, hm2⟩ := hm2
    subst hm2
    obtain ⟨hl, hr⟩ := h2 xb hxb
    refine ⟨by simp [hl], ?_⟩
    intro r hrm
    exact hr r (List.drop_subset s1 xb hrm)

theorem addcmul3_shape (x t g : T3) (b s c : ℕ) (hx : sh3 x b s c)
    (ht : sh3 t b s c) (hg : sh3 g b 1 c) : sh3 (addcmul3 x t g) b s c := by
  obtain ⟨x1, x2⟩ := hx
  obtain ⟨t1, t2⟩ := ht
  obtain ⟨g1, g2⟩ := hg
  refine ⟨by simp [addcmul3, List.length_zipWith, List.length_zip, x1, t1, g1], ?_⟩
  intro m2 hm2
  obtain ⟨xb, p, hxb, hpm, hm2⟩ := zipWith_mem _ x (t.zip g) m2 hm2
  subst hm2
  obtain ⟨htb, hgb⟩ := List.of_mem_zip hpm
  obtain ⟨xb1, xb2⟩ := x2 _ hxb
  obtain ⟨tb1, tb2⟩ := t2 _ htb
  refine ⟨by simp [List.length_zipWith, xb1, tb1], ?_⟩
  intro r hr
  obtain ⟨xr, tr, hxr, htr, hr⟩ := zipWith_mem _ xb p.1 r hr
  subst hr
  simp only [List.length_zipWith]
  rw [xb2 xr hxr, tb2 tr htr, sh2_single p.2 c (g2 _ hgb)]
  omega

theorem sh3_flatten (x : T3) (b s c : ℕ) (hx : sh3 x b s c) :
    x.flatten.length = b * s ∧ ∀ r ∈ x.flatten, r.length = c := by
  obtain ⟨h1, h2⟩ := hx
  constructor
  · have : ∀ m2 ∈ x, m2.length = s := fun m2 hm => (h2 m2 hm).1
    calc x.flatten.length = x.length * s := flatten_len_uniform s x this
    _ = b * s := by rw [h1]
  · intro r hr
    rw [List.mem_flatten] at hr
    obtain ⟨m2, hm2, hr⟩ := hr
    exact (h2 m2 hm2).2 r hr

theorem sh3_chunk_back (rows : Mat) (b s c : ℕ) (hs : s ≠ 0)
    (hlen : rows.length = b * s) (hmem : ∀ r ∈ rows, r.length = c) :
    sh3 (chunkList s rows) b s c := by
  obtain ⟨hl, hm⟩ := chunkList_length_exact s hs b rows hlen
  refine ⟨hl, ?_⟩
  intro m2 hm2
  refine ⟨hm m2 hm2, ?_⟩
  intro r hr
  exact hmem r (chunk_mem_sub s hs rows m2 hm2 r hr)

theorem splitMlp3_shape (P : Prims) (mlp : Mlp3) (x : T3) (b s c M2 : ℕ)
    (hx : sh3 x b s c) (hb : b ≠ 0) (hs8 : 8 ≤ s)
    (h1 : mlp.lin1.wf c M2) (h2 : mlp.lin2.wf M2 c) :
    splitMlp3 P mlp x 8 =
      Except.ok (chunkList s (x.flatten.map
        (fun r => applyRow mlp.lin2 ((applyRow mlp.lin1 r).map P.glf)))) ∧
    sh3 (chunkList s (x.flatten.map
        (fun r => applyRow mlp.lin2 ((applyRow mlp.lin1 r).map P.glf)))) b s c := by
  have hs : s ≠ 0 := by omega
  have hhd : ((x.headD []).length) = s := sh3_headD_len x b s c hx hb
  obtain ⟨hfl, hfr⟩ := sh3_flatten x b s c hx
  constructor
  · unfold splitMlp3
    simp only []
    rw [splitMlp_ok _ _ _ _ _ 8 (by omega)
      (by simp only [hhd, List.getD_cons_succ, List.getD_cons_zero]; omega), hhd]
    rfl
  · apply sh3_chunk_back _ b s c hs
    · rw [List.length_map]
      exact hfl
    · intro r hr
      simp only [List.mem_map] at hr
      obtain ⟨r0, _, hr⟩ := hr
      subst hr
      exact applyRow_length _ _ _ h2 _

theorem mlpApply3_shape (P : Prims) (mlp : Mlp3) (x : T3) (b s c M2 : ℕ)
    (hx : sh3 x b s c) (hw2 : mlp.lin2.wf M2 c) : sh3 (mlpApply3 P mlp x) b s c := by
  obtain ⟨h1, h2⟩ := hx
  refine ⟨by simpa [mlpApply3], ?_⟩
  intro m2 hm2
  simp only [mlpApply3, List.mem_map] at hm2
  obtain ⟨xb, hxb, hm2⟩ := hm2
  subst hm2
  refine ⟨by simpa using (h2 xb hxb).1, ?_⟩
  intro r hr
  simp only [List.mem_map] at hr
  obtain ⟨r0, _, hr⟩ := hr
  subst hr
  exact applyRow_length _ _ _ hw2 _

theorem modPiece_shape (P : Prims) (m : Modulation) (vec : Mat) (b c i : ℕ)
    (hvec : sh2 vec b c) (hc : c ≠ 0) (hmult : m.multiplier = 6)
    (hwf : m.lin.wf c (6 * c)) (hi : i < 6) : sh3 (m.piece P vec i) b 1 c := by
  obtain ⟨v1, v2⟩ := hvec
  refine ⟨by simpa [Modulation.piece], ?_⟩
  intro m2 hm2
  simp only [Modulation.piece, List.mem_map] at hm2
  obtain ⟨r, hrm, hm2⟩ := hm2
  subst hm2
  refine ⟨by simp, ?_⟩
  intro r2 hr2
  simp only [List.mem_singleton] at hr2
  subst hr2
  have hlen : (applyRow m.lin (r.map P.slf)).length = 6 * c :=
    applyRow_length _ _ _ hwf _
  rw [hmult]
  unfold torchChunk
  rw [hlen, ceilDiv_exact 6 c (by omega), chunkList_getD c hc i 6 _ hlen hi]
  simp only [List.length_take, List.length_drop, hlen]
  have hle : i * c + c ≤ 6 * c := by
    calc i * c + c = (i + 1) * c := by ring
    _ ≤ 6 * c := Nat.mul_le_mul_right c (by omega)
  omega

theorem dsb_fwd_shape (P : Prims) (m : DSB) (C H D M B Si St : ℕ) (img txt : T3)
    (vec : Mat) (hwf : m.wf C H D M) (himg : sh3 img B Si C) (htxt : sh3 txt B St C)
    (hvec : sh2 vec B C) (hB : B ≠ 0) (hSt : St ≠ 0) (hSi8 : 8 ≤ Si) :
    ∃ img2 txt2, DSB.fwd P m img txt vec = Except.ok (img2, txt2) ∧
      sh3 img2 B Si C ∧ sh3 txt2 B St C := by
  obtain ⟨hH, hH1, hD1, hHD, hidb, htdb, him6, htm6, himlw, htmlw,
    hqi, hki, hvi, hpi, hqt, hkt, hvt, hpt,
    hnqi, hnki, hnqt, hnkt, hml1i, hml2i, hml1t, hml2t⟩ := hwf
  have hSi : Si ≠ 0 := by omega
  have hHne : H ≠ 0 := by omega
  have hDne : D ≠ 0 := by omega
  have hC : C ≠ 0 := by
    rw [← hHD]
    exact Nat.mul_ne_zero hHne hDne
  have hCH : C / H = D := by
    rw [← hHD]
    exact Nat.mul_div_cancel_left D (by omega)
  have himod : ∀ i, i < 6 → sh3 (m.img_mod.piece P vec i) B 1 C :=
    fun i hi => modPiece_shape P m.img_mod vec B C i hvec hC him6 himlw hi
  have htmod : ∀ i, i < 6 → sh3 (m.txt_mod.piece P vec i) B 1 C :=
    fun i hi => modPiece_shape P m.txt_mod vec B C i hvec hC htm6 htmlw hi
  have hif : m.img_mod.fwd P vec =
      (ModOut.mk (m.img_mod.piece P vec 0) (m.img_mod.piece P vec 1)
        (m.img_mod.piece P vec 2),
        some (ModOut.mk (m.img_mod.piece P vec 3) (m.img_mod.piece P vec 4)
          (m.img_mod.piece P vec 5))) := by
    unfold Modulation.fwd
    rw [hidb]
    simp
  have htf : m.txt_mod.fwd P vec =
      (ModOut.mk (m.txt_mod.piece P vec 0) (m.txt_mod.piece P vec 1)
        (m.txt_mod.piece P vec 2),
        some (ModOut.mk (m.txt_mod.piece P vec 3) (m.txt_mod.piece P vec 4)
          (m.txt_mod.piece P vec 5))) := by
    unfold Modulation.fwd
    rw [htdb]
    simp
  have himgMsh : sh3 (modStream P (ModOut.mk (m.img_mod.piece P vec 0)
      (m.img_mod.piece P vec 1) (m.img_mod.piece P vec 2)) img) B Si C :=
    modStream_shape P _ img B Si C himg (himod 1 (by omega)) (himod 0 (by omega))
  have htxtMsh : sh3 (modStream P (ModOut.mk (m.txt_mod.piece P vec 0)
      (m.txt_mod.piece P vec 1) (m.txt_mod.piece P vec 2)) txt) B St C :=
    modStream_shape P _ txt B St C htxt (htmod 1 (by omega)) (htmod 0 (by omega))
  simp only [DSB.fwd]
  rw [hif, htf]
  simp only []
  rw [sh3_rowWidth _ B Si C himgMsh hB hSi, sh3_rowWidth _ B St C htxtMsh hB hSt,
    hH, hCH, sh3_headD_len txt B St C htxt hB]
  set imgM := modStream P (ModOut.mk (m.img_mod.piece P vec 0)
    (m.img_mod.piece P vec 1) (m.img_mod.piece P vec 2)) img with himgM_def
  set txtM := modStream P (ModOut.mk (m.txt_mod.piece P vec 0)
    (m.txt_mod.piece P vec 1) (m.txt_mod.piece P vec 2)) txt with htxtM_def
  set imgV := toHeadsD D (linear3 m.img_attn.v imgM) with himgV_def
  set txtV := toHeadsD D (linear3 m.txt_attn.v txtM) with htxtV_def
  set imgQ := qkFwdQ P m.img_attn.norm (toHeadsD D (linear3 m.img_attn.q imgM)) imgV
    with himgQ_def
  set imgK := qkFwdK P m.img_attn.norm (toHeadsD D (linear3 m.img_attn.k imgM)) imgV
    with himgK_def
  set txtQ := qkFwdQ P m.txt_attn.norm (toHeadsD D (linear3 m.txt_attn.q txtM)) txtV
    with htxtQ_def
  set txtK := qkFwdK P m.txt_attn.norm (toHeadsD D (linear3 m.txt_attn.k txtM)) txtV
    with htxtK_def
  have himgVsh : sh4 imgV B H Si D := by
    rw [himgV_def]
    exact toHeadsD_shape _ B Si C H D
      (linear3_shape _ _ B Si C C C hvi himgMsh) hSi hDne hHD
  have htxtVsh : sh4 txtV B H St D := by
    rw [htxtV_def]
    exact toHeadsD_shape _ B St C H D
      (linear3_shape _ _ B St C C C hvt htxtMsh) hSt hDne hHD
  have himgQsh : sh4 imgQ B H Si D := by
    rw [himgQ_def]
    exact rms4_shape P _ _ B H Si D
      (toHeadsD_shape _ B Si C H D
        (linear3_shape _ _ B Si C C C hqi himgMsh) hSi hDne hHD) hnqi
  have himgKsh : sh4 imgK B H Si D := by
    rw [himgK_def]
    exact rms4_shape P _ _ B H Si D
      (toHeadsD_shape _ B Si C H D
        (linear3_shape _ _ B Si C C C hki himgMsh) hSi hDne hHD) hnki
  have htxtQsh : sh4 txtQ B H St D := by
    rw [htxtQ_def]
    exact rms4_shape P _ _ B H St D
      (toHeadsD_shape _ B St C H D
        (linear3_shape _ _ B St C C C hqt htxtMsh) hSt hDne hHD) hnqt
  have htxtKsh : sh4 txtK B H St D := by
    rw [htxtK_def]
    exact rms4_shape P _ _ B H St D
      (toHeadsD_shape _ B St C H D
        (linear3_shape _ _ B St C C C hkt htxtMsh) hSt hDne hHD) hnkt
  set attn := attention P (catSeq4 txtQ imgQ) (catSeq4 txtK imgK) (catSeq4 txtV imgV)
    with hattn_def
  have hattnsh : sh3 attn B (St + Si) C := by
    rw [hattn_def, ← hHD]
    exact attention_shape P _ _ _ B H (St + Si) (St + Si) D
      (catSeq4_shape _ _ B H St Si D htxtQsh himgQsh)
      (catSeq4_shape _ _ B H St Si D htxtKsh himgKsh)
      (catSeq4_shape _ _ B H St Si D htxtVsh himgVsh) hHne (by omega)
  have hslices := slice_shape attn B St Si C hattnsh
  set img1 := addcmul3 img (linear3 m.img_attn.proj (attn.map (List.drop St)))
    (m.img_mod.piece P vec 2) with himg1_def
  have himg1sh : sh3 img1 B Si C := by
    rw [himg1_def]
    exact addcmul3_shape _ _ _ B Si C himg
      (linear3_shape _ _ B Si C C C hpi hslices.2) (himod 2 (by omega))
  set X := modStream P (ModOut.mk (m.img_mod.piece P vec 3) (m.img_mod.piece P vec 4)
    (m.img_mod.piece P vec 5)) img1 with hX_def
  have hXsh : sh3 X B Si C := by
    rw [hX_def]
    exact modStream_shape P _ img1 B Si C himg1sh (himod 4 (by omega))
      (himod 3 (by omega))
  obtain ⟨hsp, hspSh⟩ := splitMlp3_shape P m.img_mlp X B Si C M hXsh hB hSi8 hml1i hml2i
  rw [hsp]
  simp only []
  refine ⟨_, _, rfl, ?_, ?_⟩
  · exact addcmul3_shape _ _ _ B Si C himg1sh hspSh (himod 5 (by omega))
  · set txt1 := addcmul3 txt (linear3 m.txt_attn.proj (attn.map (List.take St)))
      (m.txt_mod.piece P vec 2) with htxt1_def
    have htxt1sh : sh3 txt1 B St C := by
      rw [htxt1_def]
      exact addcmul3_shape _ _ _ B St C htxt
        (linear3_shape _ _ B St C C C hpt hslices.1) (htmod 2 (by omega))
    exact addcmul3_shape _ _ _ B St C htxt1sh
      (mlpApply3_shape P _ _ B St C M
        (modStream_shape P _ txt1 B St C htxt1sh (htmod 4 (by omega))
          (htmod 3 (by omega))) hml2t)
      (htmod 5 (by omega))

theorem modPiece_shape_m (P : Prims) (m : Modulation) (vec : Mat) (b c i mult : ℕ)
    (hvec : sh2 vec b c) (hc : c ≠ 0) (hmult : m.multiplier = mult)
    (hmpos : mult ≠ 0) (hwf : m.lin.wf c (mult * c)) (hi : i < mult) :
    sh3 (m.piece P vec i) b 1 c := by
  obtain ⟨v1, v2⟩ := hvec
  refine ⟨by simpa [Modulation.piece], ?_⟩
  intro m2 hm2
  simp only [Modulation.piece, List.mem_map] at hm2
  obtain ⟨r, hrm, hm2⟩ := hm2
  subst hm2
  refine ⟨by simp, ?_⟩
  intro r2 hr2
  simp only [List.mem_singleton] at hr2
  subst hr2
  have hlen : (applyRow m.lin (r.map P.slf)).length = mult * c :=
    applyRow_length _ _ _ hwf _
  rw [hmult]
  unfold torchChunk
  rw [hlen, ceilDiv_exact mult c (by omega), chunkList_getD c hc i mult _ hlen hi]
  simp only [List.length_take, List.length_drop, hlen]
  have hle : i * c + c ≤ mult * c := by
    calc i * c + c = (i + 1) * c := by ring
    _ ≤ mult * c := Nat.mul_le_mul_right c (by omega)
  omega

theorem chunk_zip_len (cs : ℕ) (hcs : cs ≠ 0) (F : Mat × Mat → Mat) (C2 : ℕ)
    (hF : ∀ p, (F p).length = min p.1.length p.2.length ∧ ∀ r ∈ F p, r.length = C2) :
    ∀ (len : ℕ) (l1 l2 : Mat), l1.length ≤ len → l1.length = l2.length →
      ((((chunkList cs l1).zip (chunkList cs l2)).map F).flatten.length = l1.length ∧
        ∀ r ∈ (((chunkList cs l1).zip (chunkList cs l2)).map F).flatten,
          r.length = C2) := by
  intro len
  induction len with
  | zero =>
    intro l1 l2 h1 h2
    have : l1 = [] := List.eq_nil_of_length_eq_zero (by omega)
    subst this
    have : l2 = [] := List.eq_nil_of_length_eq_zero (by omega)
    subst this
    simp [chunkList_nil]
  | succ k ih =>
    intro l1 l2 h1 h2
    cases l1 with
    | nil =>
      have : l2 = [] := List.eq_nil_of_length_eq_zero (by simp at h2; omega)
      subst this
      simp [chunkList_nil]
    | cons a as =>
      cases l2 with
      | nil => simp at h2
      | cons b2 bs =>
        rw [chunkList_eq_cons cs (a :: as) hcs (by simp),
          chunkList_eq_cons cs (b2 :: bs) hcs (by simp)]
        simp only [List.zip_cons_cons, List.map_cons, List.flatten_cons]
        have hlen2 : ((a :: as).drop cs).length = ((b2 :: bs).drop cs).length := by
          simp only [List.length_drop]
          rw [h2]
        have hd : ((a :: as).drop cs).length ≤ k := by
          simp only [List.length_drop, List.length_cons]
          simp only [List.length_cons] at h1
          omega
        obtain ⟨ihl, ihm⟩ := ih _ _ hd hlen2
        constructor
        · rw [List.length_append, ihl, (hF _).1]
          simp only [List.length_take, List.length_drop]
          simp only [List.length_cons] at h2 ⊢
          omega
        · intro r hr
          rcases List.mem_append.mp hr with hr1 | hr1
          · exact (hF _).2 r hr1
          · exact ihm r hr1

theorem ssb_fwd_shape (P : Prims) (m : SSB) (C H D M B S : ℕ) (x : T3) (vec : Mat)
    (hwf : m.wf C H D M) (hx : sh3 x B S C) (hvec : sh2 vec B C) (hB : B ≠ 0)
    (hS6 : 6 ≤ S) :
    ∃ x2, SSB.fwd P m x vec = Except.ok x2 ∧ sh3 x2 B S C := by
  obtain ⟨hH, hH1, hD1, hHD, hm3, hmlw, hq, hk, hv, hmlp, hl2, hnq, hnk⟩ := hwf
  have hS : S ≠ 0 := by omega
  have hHne : H ≠ 0 := by omega
  have hDne : D ≠ 0 := by omega
  have hC : C ≠ 0 := by
    rw [← hHD]
    exact Nat.mul_ne_zero hHne hDne
  have hCH : C / H = D := by
    rw [← hHD]
    exact Nat.mul_div_cancel_left D (by omega)
  have hmod : ∀ i, i < 3 → sh3 (m.modulation.piece P vec i) B 1 C :=
    fun i hi => modPiece_shape_m P m.modulation vec B C i 3 hvec hC hm3 (by omega) hmlw hi
  have hmf : m.modulation.fwd P vec =
      (ModOut.mk (m.modulation.piece P vec 0) (m.modulation.piece P vec 1)
        (m.modulation.piece P vec 2),
        if m.modulation.is_double then
          some (ModOut.mk (m.modulation.piece P vec 3) (m.modulation.piece P vec 4)
            (m.modulation.piece P vec 5))
        else none) := by
    unfold Modulation.fwd
    rfl
  have hxMsh : sh3 (modStream P (ModOut.mk (m.modulation.piece P vec 0)
      (m.modulation.piece P vec 1) (m.modulation.piece P vec 2)) x) B S C :=
    modStream_shape P _ x B S C hx (hmod 1 (by omega)) (hmod 0 (by omega))
  simp only [SSB.fwd]
  rw [hmf]
  simp only []
  rw [sh3_rowWidth _ B S C hxMsh hB hS, hH, hCH]
  set xM := modStream P (ModOut.mk (m.modulation.piece P vec 0)
    (m.modulation.piece P vec 1) (m.modulation.piece P vec 2)) x with hxM_def
  rw [sh3_headD_len xM B S C hxMsh hB]
  set v := toHeadsD D (linear3 m.linear1_attn_v xM) with hv_def
  set q := qkFwdQ P m.norm (toHeadsD D (linear3 m.linear1_attn_q xM)) v with hq_def
  set k := qkFwdK P m.norm (toHeadsD D (linear3 m.linear1_attn_k xM)) v with hk_def
  have hvsh : sh4 v B H S D := by
    rw [hv_def]
    exact toHeadsD_shape _ B S C H D (linear3_shape _ _ B S C C C hv hxMsh) hS hDne hHD
  have hqsh : sh4 q B H S D := by
    rw [hq_def]
    exact rms4_shape P _ _ B H S D
      (toHeadsD_shape _ B S C H D (linear3_shape _ _ B S C C C hq hxMsh) hS hDne hHD) hnq
  have hksh : sh4 k B H S D := by
    rw [hk_def]
    exact rms4_shape P _ _ B H S D
      (toHeadsD_shape _ B S C H D (linear3_shape _ _ B S C C C hk hxMsh) hS hDne hHD) hnk
  set attn := attention P q k v with hattn_def
  have hattnsh : sh3 attn B S C := by
    rw [hattn_def, ← hHD]
    exact attention_shape P q k v B H S S D hqsh hksh hvsh hHne hS
  have hcs : S / 6 ≠ 0 := Nat.pos_iff_ne_zero.mp (Nat.div_pos hS6 (by omega))
  rw [if_neg (fun hcon => hcs (And.left hcon))]
  obtain ⟨hxfl, hxfr⟩ := sh3_flatten xM B S C hxMsh
  obtain ⟨hafl, hafr⟩ := sh3_flatten attn B S C hattnsh
  have hF : ∀ p : Mat × Mat,
      ((p.2.zip (p.1.map (fun r => (applyRow m.linear1_mlp r).map P.glf))).map
        (fun rr => applyRow m.linear2 (rr.1 ++ rr.2))).length =
        min p.1.length p.2.length ∧
      ∀ r ∈ (p.2.zip (p.1.map (fun r => (applyRow m.linear1_mlp r).map P.glf))).map
        (fun rr => applyRow m.linear2 (rr.1 ++ rr.2)), r.length = C := by
    intro p
    constructor
    · simp only [List.length_map, List.length_zip]
      omega
    · intro r hr
      simp only [List.mem_map] at hr
      obtain ⟨rr, _, hr⟩ := hr
      subst hr
      exact applyRow_length _ _ _ hl2 _
  obtain ⟨hnl, hnm⟩ := chunk_zip_len (S / 6) hcs _ C hF xM.flatten.length
    xM.flatten attn.flatten le_rfl (by rw [hxfl, hafl])
  refine ⟨_, rfl, ?_⟩
  apply addcmul3_shape _ _ _ B S C hx _ (hmod 2 (by omega))
  apply sh3_chunk_back _ B S C hS
  · rw [hnl, hxfl]
  · exact hnm

/-- C6: for every valid input (well-formed module weights, rectangular
inputs of hidden width C, nonzero batch and sequence lengths, and
sequence lengths compatible with the fixed chunk counts 8 and 6),
DoubleStreamBlock.forward returns an (img, txt) pair whose shapes equal
the shapes of the img and txt arguments, and SingleStreamBlock.forward
returns a tensor whose shape equals the shape of its x argument — the
gated residual updates never change shape. -/
theorem c6_blocks_preserve_shape (P : Prims) (md : DSB) (ms : SSB)
    (C H D M C2 H2 D2 M2 B Si St B2 S : ℕ) (img txt x : T3) (vec vec2 : Mat)
    (hwfd : md.wf C H D M) (himg : sh3 img B Si C) (htxt : sh3 txt B St C)
    (hvec : sh2 vec B C) (hB : B ≠ 0) (hSt : St ≠ 0) (hSi8 : 8 ≤ Si)
    (hwfs : ms.wf C2 H2 D2 M2) (hx : sh3 x B2 S C2) (hvec2 : sh2 vec2 B2 C2)
    (hB2 : B2 ≠ 0) (hS6 : 6 ≤ S) :
    (∃ img2 txt2, DSB.fwd P md img txt vec = Except.ok (img2, txt2) ∧
      sh3 img2 B Si C ∧ sh3 txt2 B St C) ∧
    (∃ x2, SSB.fwd P ms x vec2 = Except.ok x2 ∧ sh3 x2 B2 S C2) :=
  ⟨dsb_fwd_shape P md C H D M B Si St img txt vec hwfd himg htxt hvec hB hSt hSi8,
    ssb_fwd_shape P ms C2 H2 D2 M2 B2 S x vec2 hwfs hx hvec2 hB2 hS6⟩

/-- Witness for C6: the minimal well-formed blocks on concrete zero
inputs of shapes [1,8,1], [1,1,1] and [1,6,1]. -/
theorem c6_witness :
    (tinyDSB.wf 1 1 1 1 ∧ sh3 (zeros3 1 8 1) 1 8 1 ∧ sh3 (zeros3 1 1 1) 1 1 1 ∧
      sh2 (zeros2 1 1) 1 1 ∧ tinySSB.wf 1 1 1 1 ∧ sh3 (zeros3 1 6 1) 1 6 1) ∧
    ((∃ img2 txt2, DSB.fwd idPrims tinyDSB (zeros3 1 8 1) (zeros3 1 1 1)
        (zeros2 1 1) = Except.ok (img2, txt2) ∧ sh3 img2 1 8 1 ∧ sh3 txt2 1 1 1) ∧
      (∃ x2, SSB.fwd idPrims tinySSB (zeros3 1 6 1) (zeros2 1 1) = Except.ok x2 ∧
        sh3 x2 1 6 1)) :=
  ⟨⟨by unfold DSB.wf Linear.wf; decide, by unfold sh3 sh2; decide,
      by unfold sh3 sh2; decide, by unfold sh2; decide,
      by unfold SSB.wf Linear.wf; decide, by unfold sh3 sh2; decide⟩,
    c6_blocks_preserve_shape idPrims tinyDSB tinySSB 1 1 1 1 1 1 1 1 1 8 1 1 6
      (zeros3 1 8 1) (zeros3 1 1 1) (zeros3 1 6 1) (zeros2 1 1) (zeros2 1 1)
      (by unfold DSB.wf Linear.wf; decide) (by unfold sh3 sh2; decide)
      (by unfold sh3 sh2; decide) (by unfold sh2; decide) (by decide) (by decide)
      (by decide) (by unfold SSB.wf Linear.wf; decide) (by unfold sh3 sh2; decide)
      (by unfold sh2; decide) (by decide) (by decide)⟩

theorem zipWith_getD (f : α → β → γ) (d1 : α) (d2 : β) (d3 : γ) :
    ∀ (l1 : List α) (l2 : List β) (i : ℕ), i < l1.length → i < l2.length →
      (List.zipWith f l1 l2).getD i d3 = f (l1.getD i d1) (l2.getD i d2) := by
  intro l1
  induction l1 with
  | nil => intro l2 i h1; simp at h1
  | cons a as ih =>
    intro l2 i h1 h2
    cases l2 with
    | nil => simp at h2
    | cons b bs =>
      cases i with
      | zero => rfl
      | succ j =>
        simp only [List.zipWith_cons_cons, List.getD_cons_succ]
        exact ih bs j (by simpa using h1) (by simpa using h2)

theorem getD_map_lt (f : α → β) (da : α) (db : β) :
    ∀ (l : List α) (i : ℕ), i < l.length → (l.map f).getD i db = f (l.getD i da) := by
  intro l
  induction l with
  | nil => intro i h; simp at h
  | cons a as ih =>
    intro i h
    cases i with
    | zero => rfl
    | succ j =>
      simp only [List.map_cons, List.getD_cons_succ]
      exact ih j (by simpa using h)

theorem dsbStreamV_shape (P : Prims) (sa : SelfAttn) (H D B S C : ℕ) (xm : T3)
    (hxm : sh3 xm B S C) (hB : B ≠ 0) (hS : S ≠ 0) (hv : sa.v.wf C C)
    (hH : H ≠ 0) (hD : D ≠ 0) (hHD : H * D = C) :
    sh4 (dsbStreamV P sa H xm) B H S D := by
  unfold dsbStreamV
  have hr : rowWidth xm / H = D := by
    rw [sh3_rowWidth xm B S C hxm hB hS, ← hHD, Nat.mul_div_cancel_left D (by omega)]
  rw [hr]
  exact toHeadsD_shape _ B S C H D (linear3_shape _ _ B S C C C hv hxm) hS hD hHD

theorem dsbStreamQ_shape (P : Prims) (sa : SelfAttn) (H D B S C : ℕ) (xm : T3)
    (hxm : sh3 xm B S C) (hB : B ≠ 0) (hS : S ≠ 0) (hq : sa.q.wf C C)
    (hv : sa.v.wf C C) (hsc : sa.norm.query_norm.scale.length = D)
    (hH : H ≠ 0) (hD : D ≠ 0) (hHD : H * D = C) :
    sh4 (dsbStreamQ P sa H xm) B H S D := by
  unfold dsbStreamQ
  have hr : rowWidth xm / H = D := by
    rw [sh3_rowWidth xm B S C hxm hB hS, ← hHD, Nat.mul_div_cancel_left D (by omega)]
  rw [hr]
  exact rms4_shape P _ _ B H S D
    (toHeadsD_shape _ B S C H D (linear3_shape _ _ B S C C C hq hxm) hS hD hHD) hsc

theorem dsbStreamK_shape (P : Prims) (sa : SelfAttn) (H D B S C : ℕ) (xm : T3)
    (hxm : sh3 xm B S C) (hB : B ≠ 0) (hS : S ≠ 0) (hk : sa.k.wf C C)
    (hv : sa.v.wf C C) (hsc : sa.norm.key_norm.scale.length = D)
    (hH : H ≠ 0) (hD : D ≠ 0) (hHD : H * D = C) :
    sh4 (dsbStreamK P sa H xm) B H S D := by
  unfold dsbStreamK
  have hr : rowWidth xm / H = D := by
    rw [sh3_rowWidth xm B S C hxm hB hS, ← hHD, Nat.mul_div_cancel_left D (by omega)]
  rw [hr]
  exact rms4_shape P _ _ B H S D
    (toHeadsD_shape _ B S C H D (linear3_shape _ _ B S C C C hk hxm) hS hD hHD) hsc

theorem sh4_idx_len (x : T4) (b h s d : ℕ) (hx : sh4 x b h s d) (ib ih2 : ℕ)
    (hb : ib < b) (hh : ih2 < h) : ((x.getD ib []).getD ih2 []).length = s := by
  obtain ⟨h1, h2⟩ := hx
  have hmem1 : x.getD ib [] ∈ x := getD_mem [] x ib (by omega)
  obtain ⟨hb1, hb2⟩ := h2 _ hmem1
  have hmem2 : (x.getD ib []).getD ih2 [] ∈ x.getD ib [] :=
    getD_mem [] _ ih2 (by omega)
  exact (hb2 _ hmem2).1

theorem sh4_idx1_len (x : T4) (b h s d : ℕ) (hx : sh4 x b h s d) (ib : ℕ)
    (hb : ib < b) : (x.getD ib []).length = h :=
  (hx.2 _ (getD_mem [] x ib (by rw [hx.1]; omega))).1

/-- C2: in every DoubleStreamBlock.forward call (on well-formed weights
and rectangular inputs), the per-head q, k and v tensors passed to the
attention primitive are the concatenations, along the sequence axis, of
the text tokens strictly before the image tokens (at every batch index
and head the joint sequence row list is the text rows ++ the image rows,
the text part having exactly txt.shape[1] rows), and the attention output
is split back into a text slice and an image slice exactly at index
txt.shape[1]: the two slices have lengths txt.shape[1] and img.shape[1]
and concatenate back to the full joint output. -/
theorem c2_text_precedes_image (P : Prims) (m : DSB) (C H D M B Si St : ℕ)
    (img txt : T3) (vec : Mat) (hwf : m.wf C H D M) (himg : sh3 img B Si C)
    (htxt : sh3 txt B St C) (hvec : sh2 vec B C) (hB : B ≠ 0) (hSt : St ≠ 0)
    (hSi : Si ≠ 0) :
    (txt.headD []).length = St ∧
    (∀ ib ih2, ib < B → ih2 < H →
      (((catSeq4 (dsbStreamQ P m.txt_attn m.num_heads (dsbTxtM P m txt vec))
        (dsbStreamQ P m.img_attn m.num_heads (dsbImgM P m img vec))).getD ib []).getD ih2 [] =
        (((dsbStreamQ P m.txt_attn m.num_heads (dsbTxtM P m txt vec)).getD ib []).getD ih2 []) ++
        (((dsbStreamQ P m.img_attn m.num_heads (dsbImgM P m img vec)).getD ib []).getD ih2 [])) ∧
      (((dsbStreamQ P m.txt_attn m.num_heads (dsbTxtM P m txt vec)).getD ib []).getD ih2 []).length = St ∧
      (((catSeq4 (dsbStreamK P m.txt_attn m.num_heads (dsbTxtM P m txt vec))
        (dsbStreamK P m.img_attn m.num_heads (dsbImgM P m img vec))).getD ib []).getD ih2 [] =
        (((dsbStreamK P m.txt_attn m.num_heads (dsbTxtM P m txt vec)).getD ib []).getD ih2 []) ++
        (((dsbStreamK P m.img_attn m.num_heads (dsbImgM P m img vec)).getD ib []).getD ih2 [])) ∧
      (((dsbStreamK P m.txt_attn m.num_heads (dsbTxtM P m txt vec)).getD ib []).getD ih2 []).length = St ∧
      (((catSeq4 (dsbStreamV P m.txt_attn m.num_heads (dsbTxtM P m txt vec))
        (dsbStreamV P m.img_attn m.num_heads (dsbImgM P m img vec))).getD ib []).getD ih2 [] =
        (((dsbStreamV P m.txt_attn m.num_heads (dsbTxtM P m txt vec)).getD ib []).getD ih2 []) ++
        (((dsbStreamV P m.img_attn m.num_heads (dsbImgM P m img vec)).getD ib []).getD ih2 [])) ∧
      (((dsbStreamV P m.txt_attn m.num_heads (dsbTxtM P m txt vec)).getD ib []).getD ih2 []).length = St) ∧
    (∀ ib, ib < B →
      ((dsbAttnOut P m img txt vec).map
          (List.take ((txt.headD []).length))).getD ib [] ++
        ((dsbAttnOut P m img txt vec).map
          (List.drop ((txt.headD []).length))).getD ib [] =
        (dsbAttnOut P m img txt vec).getD ib [] ∧
      (((dsbAttnOut P m img txt vec).map
          (List.take ((txt.headD []).length))).getD ib []).length = St ∧
      (((dsbAttnOut P m img txt vec).map
          (List.drop ((txt.headD []).length))).getD ib []).length = Si) := by
  obtain ⟨hH, hH1, hD1, hHD, hidb, htdb, him6, htm6, himlw, htmlw,
    hqi, hki, hvi, hpi, hqt, hkt, hvt, hpt,
    hnqi, hnki, hnqt, hnkt, _, _, _, _⟩ := hwf
  have hHne : H ≠ 0 := by omega
  have hDne : D ≠ 0 := by omega
  have hC : C ≠ 0 := by
    rw [← hHD]
    exact Nat.mul_ne_zero hHne hDne
  have himod : ∀ i, i < 6 → sh3 (m.img_mod.piece P vec i) B 1 C :=
    fun i hi => modPiece_shape P m.img_mod vec B C i hvec hC him6 himlw hi
  have htmod : ∀ i, i < 6 → sh3 (m.txt_mod.piece P vec i) B 1 C :=
    fun i hi => modPiece_shape P m.txt_mod vec B C i hvec hC htm6 htmlw hi
  have himgMsh : sh3 (dsbImgM P m img vec) B Si C := by
    unfold dsbImgM
    exact modStream_shape P _ img B Si C himg (himod 1 (by omega)) (himod 0 (by omega))
  have htxtMsh : sh3 (dsbTxtM P m txt vec) B St C := by
    unfold dsbTxtM
    exact modStream_shape P _ txt B St C htxt (htmod 1 (by omega)) (htmod 0 (by omega))
  have hTlen : (txt.headD []).length = St := sh3_headD_len txt B St C htxt hB
  have htq : sh4 (dsbStreamQ P m.txt_attn H (dsbTxtM P m txt vec)) B H St D :=
    dsbStreamQ_shape P _ H D B St C _ htxtMsh hB hSt hqt hvt hnqt hHne hDne hHD
  have hiq : sh4 (dsbStreamQ P m.img_attn H (dsbImgM P m img vec)) B H Si D :=
    dsbStreamQ_shape P _ H D B Si C _ himgMsh hB hSi hqi hvi hnqi hHne hDne hHD
  have htk : sh4 (dsbStreamK P m.txt_attn H (dsbTxtM P m txt vec)) B H St D :=
    dsbStreamK_shape P _ H D B St C _ htxtMsh hB hSt hkt hvt hnkt hHne hDne hHD
  have hik : sh4 (dsbStreamK P m.img_attn H (dsbImgM P m img vec)) B H Si D :=
    dsbStreamK_shape P _ H D B Si C _ himgMsh hB hSi hki hvi hnki hHne hDne hHD
  have htv : sh4 (dsbStreamV P m.txt_attn H (dsbTxtM P m txt vec)) B H St D :=
    dsbStreamV_shape P _ H D B St C _ htxtMsh hB hSt hvt hHne hDne hHD
  have hiv : sh4 (dsbStreamV P m.img_attn H (dsbImgM P m img vec)) B H Si D :=
    dsbStreamV_shape P _ H D B Si C _ himgMsh hB hSi hvi hHne hDne hHD
  have hattnsh : sh3 (dsbAttnOut P m img txt vec) B (St + Si) C := by
    unfold dsbAttnOut
    rw [hH, ← hHD]
    exact attention_shape P _ _ _ B H (St + Si) (St + Si) D
      (catSeq4_shape _ _ B H St Si D htq hiq)
      (catSeq4_shape _ _ B H St Si D htk hik)
      (catSeq4_shape _ _ B H St Si D htv hiv) hHne (by omega)
  rw [hH, hTlen]
  refine ⟨rfl, ?_, ?_⟩
  · intro ib ih2 hb hh
    have hcat : ∀ (a c : T4), sh4 a B H St D → sh4 c B H Si D →
        ((catSeq4 a c).getD ib []).getD ih2 [] =
          ((a.getD ib []).getD ih2 []) ++ ((c.getD ib []).getD ih2 []) := by
      intro a c ha hc
      unfold catSeq4
      rw [zipWith_getD _ [] [] [] a c ib (by rw [ha.1]; omega) (by rw [hc.1]; omega)]
      rw [zipWith_getD _ [] [] [] _ _ ih2
        (by rw [sh4_idx1_len a B H St D ha ib (by omega)]; omega)
        (by rw [sh4_idx1_len c B H Si D hc ib (by omega)]; omega)]
    exact ⟨hcat _ _ htq hiq, sh4_idx_len _ B H St D htq ib ih2 (by omega) (by omega),
      hcat _ _ htk hik, sh4_idx_len _ B H St D htk ib ih2 (by omega) (by omega),
      hcat _ _ htv hiv, sh4_idx_len _ B H St D htv ib ih2 (by omega) (by omega)⟩
  · intro ib hb
    obtain ⟨ha1, ha2⟩ := hattnsh
    have hbl : ib < (dsbAttnOut P m img txt vec).length := by omega
    have hxb := ha2 _ (getD_mem [] _ ib hbl)
    rw [getD_map_lt (List.take St) [] [] _ ib hbl, getD_map_lt (List.drop St) [] [] _ ib hbl]
    refine ⟨List.take_append_drop St _, ?_, ?_⟩
    · rw [List.length_take, hxb.1]
      omega
    · rw [List.length_drop, hxb.1]
      omega

/-- Witness for C2: the minimal well-formed block on concrete zero inputs
(img of shape [1,8,1], txt of shape [1,1,1]). -/
theorem c2_witness :
    (tinyDSB.wf 1 1 1 1 ∧ sh3 (zeros3 1 8 1) 1 8 1 ∧ sh3 (zeros3 1 1 1) 1 1 1 ∧
      sh2 (zeros2 1 1) 1 1) ∧
    (((zeros3 1 1 1 : T3).headD []).length = 1 ∧
    (∀ ib ih2, ib < 1 → ih2 < 1 →
      (((catSeq4 (dsbStreamQ idPrims tinyDSB.txt_attn tinyDSB.num_heads (dsbTxtM idPrims tinyDSB (zeros3 1 1 1) (zeros2 1 1)))
        (dsbStreamQ idPrims tinyDSB.img_attn tinyDSB.num_heads (dsbImgM idPrims tinyDSB (zeros3 1 8 1) (zeros2 1 1)))).getD ib []).getD ih2 [] =
        (((dsbStreamQ idPrims tinyDSB.txt_attn tinyDSB.num_heads (dsbTxtM idPrims tinyDSB (zeros3 1 1 1) (zeros2 1 1))).getD ib []).getD ih2 []) ++
        (((dsbStreamQ idPrims tinyDSB.img_attn tinyDSB.num_heads (dsbImgM idPrims tinyDSB (zeros3 1 8 1) (zeros2 1 1))).getD ib []).getD ih2 [])) ∧
      (((dsbStreamQ idPrims tinyDSB.txt_attn tinyDSB.num_heads (dsbTxtM idPrims tinyDSB (zeros3 1 1 1) (zeros2 1 1))).getD ib []).getD ih2 []).length = 1 ∧
      (((catSeq4 (dsbStreamK idPrims tinyDSB.txt_attn tinyDSB.num_heads (dsbTxtM idPrims tinyDSB (zeros3 1 1 1) (zeros2 1 1)))
        (dsbStreamK idPrims tinyDSB.img_attn tinyDSB.num_heads (dsbImgM idPrims tinyDSB (zeros3 1 8 1) (zeros2 1 1)))).getD ib []).getD ih2 [] =
        (((dsbStreamK idPrims tinyDSB.txt_attn tinyDSB.num_heads (dsbTxtM idPrims tinyDSB (zeros3 1 1 1) (zeros2 1 1))).getD ib []).getD ih2 []) ++
        (((dsbStreamK idPrims tinyDSB.img_attn tinyDSB.num_heads (dsbImgM idPrims tinyDSB (zeros3 1 8 1) (zeros2 1 1))).getD ib []).getD ih2 [])) ∧
      (((dsbStreamK idPrims tinyDSB.txt_attn tinyDSB.num_heads (dsbTxtM idPrims tinyDSB (zeros3 1 1 1) (zeros2 1 1))).getD ib []).getD ih2 []).length = 1 ∧
      (((catSeq4 (dsbStreamV idPrims tinyDSB.txt_attn tinyDSB.num_heads (dsbTxtM idPrims tinyDSB (zeros3 1 1 1) (zeros2 1 1)))
        (dsbStreamV idPrims tinyDSB.img_attn tinyDSB.num_heads (dsbImgM idPrims tinyDSB (zeros3 1 8 1) (zeros2 1 1)))).getD ib []).getD ih2 [] =
        (((dsbStreamV idPrims tinyDSB.txt_attn tinyDSB.num_heads (dsbTxtM idPrims tinyDSB (zeros3 1 1 1) (zeros2 1 1))).getD ib []).getD ih2 []) ++
        (((dsbStreamV idPrims tinyDSB.img_attn tinyDSB.num_heads (dsbImgM idPrims tinyDSB (zeros3 1 8 1) (zeros2 1 1))).getD ib []).getD ih2 [])) ∧
      (((dsbStreamV idPrims tinyDSB.txt_attn tinyDSB.num_heads (dsbTxtM idPrims tinyDSB (zeros3 1 1 1) (zeros2 1 1))).getD ib []).getD ih2 []).length = 1) ∧
    (∀ ib, ib < 1 →
      ((dsbAttnOut idPrims tinyDSB (zeros3 1 8 1) (zeros3 1 1 1) (zeros2 1 1)).map
          (List.take (((zeros3 1 1 1 : T3).headD []).length))).getD ib [] ++
        ((dsbAttnOut idPrims tinyDSB (zeros3 1 8 1) (zeros3 1 1 1) (zeros2 1 1)).map
          (List.drop (((zeros3 1 1 1 : T3).headD []).length))).getD ib [] =
        (dsbAttnOut idPrims tinyDSB (zeros3 1 8 1) (zeros3 1 1 1) (zeros2 1 1)).getD ib [] ∧
      (((dsbAttnOut idPrims tinyDSB (zeros3 1 8 1) (zeros3 1 1 1) (zeros2 1 1)).map
          (List.take (((zeros3 1 1 1 : T3).headD []).length))).getD ib []).length = 1 ∧
      (((dsbAttnOut idPrims tinyDSB (zeros3 1 8 1) (zeros3 1 1 1) (zeros2 1 1)).map
          (List.drop (((zeros3 1 1 1 : T3).headD []).length))).getD ib []).length = 8)) :=
  ⟨⟨by unfold DSB.wf Linear.wf; decide, by unfold sh3 sh2; decide,
      by unfold sh3 sh2; decide, by unfold sh2; decide⟩,
    c2_text_precedes_image idPrims tinyDSB 1 1 1 1 1 8 1 (zeros3 1 8 1)
      (zeros3 1 1 1) (zeros2 1 1) (by unfold DSB.wf Linear.wf; decide)
      (by unfold sh3 sh2; decide) (by unfold sh3 sh2; decide)
      (by unfold sh2; decide) (by decide) (by decide) (by decide)⟩
